import Mathlib

/-
Verification development for the Pitch Lens web front end.

This file gives a shallow embedding, in Lean 4, of the pure computational
core of the repository's TypeScript sources:

  * the deterministic chat assistant
    (Frontend/src/ai/flows/startup-interviewer.ts),
  * the analysis-page polling loop
    (Frontend/src/app/startup/[startupId]/page.tsx),
  * the founder contact directory and meeting scheduler
    (Frontend/src/components/startup-contact-directory.tsx),
  * the investor-dashboard delete handler and the upload form,
  * the financial string parsing and currency formatting helpers
    (Frontend/src/components/financials.tsx).

Modelling conventions:
  * JavaScript strings are Lean String values; String.prototype.toLowerCase
    is modelled on the ASCII range (all string literals compared by the
    code are ASCII).
  * JavaScript numbers are modelled as rationals; the code under study only
    multiplies parsed decimals by powers of ten, where rational and IEEE
    semantics tell the same story at the level of the claims.
  * Fallible operations return Option values; JSON.parse is embedded as a
    total recursive-descent routine returning Option JVal.
  * React state updates are modelled by explicit state passing; network
    requests by an explicit outcome parameter or outcome stream.
-/

namespace PitchLens

/-! ## Basic JavaScript string helpers -/

/-- Whitespace test used by String.prototype.trim and the regex class \s
(ASCII portion). -/
def isWsChar (c : Char) : Bool :=
  c == ' ' || c == '\t' || c == '\n' || c == '\r' || c == '\x0b' || c == '\x0c'

/-- Lower-casing of a single character, ASCII model of toLowerCase. -/
def lowerChar (c : Char) : Char :=
  if 'A' ≤ c ∧ c ≤ 'Z' then Char.ofNat (c.toNat + 32) else c

/-- Model of String.prototype.toLowerCase (ASCII range). -/
def asciiLower (s : String) : String := ⟨s.data.map lowerChar⟩

/-- Remove trailing whitespace from a character list. -/
def trimRightL : List Char → List Char
  | [] => []
  | c :: cs =>
    match trimRightL cs with
    | [] => if isWsChar c then [] else [c]
    | r => c :: r

/-- Model of String.prototype.trim on character lists. -/
def jsTrimL (l : List Char) : List Char := trimRightL (l.dropWhile isWsChar)

/-- Model of String.prototype.trim. -/
def jsTrim (s : String) : String := ⟨jsTrimL s.data⟩

/-- Decide whether the first list is a prefix of the second. -/
def listPrefixOf : List Char → List Char → Bool
  | [], _ => true
  | _ :: _, [] => false
  | a :: as, b :: bs => a == b && listPrefixOf as bs

/-- Decide whether needle occurs as a contiguous sublist of hay. -/
def hasSubL (needle : List Char) : List Char → Bool
  | [] => needle.isEmpty
  | c :: t => listPrefixOf needle (c :: t) || hasSubL needle t

/-- Model of String.prototype.includes. -/
def strIncludes (hay needle : String) : Bool := hasSubL needle.data hay.data

/-- Model of Array.prototype.join with a separator. -/
def joinSep (sep : String) : List String → String
  | [] => ""
  | [x] => x
  | x :: y :: rest => x ++ sep ++ joinSep sep (y :: rest)

/-- Helper for collapsing whitespace runs: the flag records whether the
previous character was whitespace. -/
def collapseGo : Bool → List Char → List Char
  | _, [] => []
  | prevWs, c :: cs =>
    if isWsChar c then
      if prevWs then collapseGo true cs else ' ' :: collapseGo true cs
    else c :: collapseGo false cs

/-- Model of replace(/\s+/g, ' '): every maximal whitespace run becomes one
space. -/
def collapseWs (s : String) : String := ⟨collapseGo false s.data⟩

/-- Truthiness of a JS string-or-undefined value: defined and non-empty. -/
def optTruthy : Option String → Bool
  | some s => !(s == "")
  | none => false

/-! ## JSON values and JSON.parse -/

/-- Result values of JSON.parse. Object fields are kept in source order;
the lookup helper returns the last binding for a key, matching the
behaviour of JavaScript object literals with duplicate keys. -/
inductive JVal where
  | str (s : String)
  | num (q : ℚ)
  | bool (b : Bool)
  | null
  | arr (elems : List JVal)
  | obj (fields : List (String × JVal))

/-- Truthiness of a JSON value under JavaScript coercion. -/
def jTruthy : JVal → Bool
  | .str s => !(s == "")
  | .num q => !(q == 0)
  | .bool b => b
  | .null => false
  | .arr _ => true
  | .obj _ => true

/-- Whitespace accepted between JSON tokens. -/
def isJsonWs (c : Char) : Bool :=
  c == ' ' || c == '\t' || c == '\n' || c == '\r'

/-- Digit test. -/
def isDigitChar (c : Char) : Bool := '0' ≤ c && c ≤ '9'

/-- Numeric value of a decimal digit. -/
def digitVal (c : Char) : Nat := c.toNat - '0'.toNat

/-- Value of a digit string read in base ten. -/
def digitsToNat (l : List Char) : Nat := l.foldl (fun acc c => acc * 10 + digitVal c) 0

/-- Hexadecimal digit value (for \uXXXX escapes). -/
def hexVal (c : Char) : Option Nat :=
  if isDigitChar c then some (digitVal c)
  else if ('a' ≤ c) && (c ≤ 'f') then some (10 + (c.toNat - 'a'.toNat))
  else if ('A' ≤ c) && (c ≤ 'F') then some (10 + (c.toNat - 'A'.toNat))
  else none

/-- Parse the body of a JSON string literal after the opening quote,
returning the decoded characters and the remaining input. Unicode escapes
are decoded as code points; unpaired surrogates fall back to the zero
character, a corner without bearing on the claims proved below. -/
def parseStringBody : List Char → Option (List Char × List Char)
  | [] => none
  | '"' :: rest => some ([], rest)
  | '\\' :: esc =>
    match esc with
    | [] => none
    | e :: rest =>
      if e == 'u' then
        match rest with
        | h1 :: h2 :: h3 :: h4 :: rest2 =>
          match hexVal h1, hexVal h2, hexVal h3, hexVal h4 with
          | some a, some b, some c, some d =>
            (parseStringBody rest2).map fun (cs, rem) =>
              (Char.ofNat (((a * 16 + b) * 16 + c) * 16 + d) :: cs, rem)
          | _, _, _, _ => none
        | _ => none
      else
        let dec : Option Char :=
          if e == '"' then some '"'
          else if e == '\\' then some '\\'
          else if e == '/' then some '/'
          else if e == 'b' then some '\x08'
          else if e == 'f' then some '\x0c'
          else if e == 'n' then some '\n'
          else if e == 'r' then some '\r'
          else if e == 't' then some '\t'
          else none
        match dec with
        | some ch => (parseStringBody rest).map fun (cs, rem) => (ch :: cs, rem)
        | none => none
  | c :: rest =>
    if c.toNat < 32 then none
    else (parseStringBody rest).map fun (cs, rem) => (c :: cs, rem)

/-- Parse a JSON number at the head of the input. -/
def parseJsonNumber (l : List Char) : Option (ℚ × List Char) :=
  let (neg, l1) := match l with
    | '-' :: t => (true, t)
    | _ => (false, l)
  let intDigits := l1.takeWhile isDigitChar
  let l2 := l1.dropWhile isDigitChar
  if intDigits.isEmpty then none else
  let (fracDigits, l3) := match l2 with
    | '.' :: t =>
      let f := t.takeWhile isDigitChar
      (f, t.dropWhile isDigitChar)
    | _ => ([], l2)
  if l2 ≠ l3 && fracDigits.isEmpty then none else
  let (expOk, expNeg, expDigits, l4) := match l3 with
    | 'e' :: t | 'E' :: t =>
      let (en, t1) := match t with
        | '-' :: t2 => (true, t2)
        | '+' :: t2 => (false, t2)
        | _ => (false, t)
      let ds := t1.takeWhile isDigitChar
      (!ds.isEmpty, en, ds, t1.dropWhile isDigitChar)
    | _ => (true, false, [], l3)
  if !expOk then none else
  let base : ℚ := (digitsToNat intDigits : ℚ) +
    (digitsToNat fracDigits : ℚ) / ((10 : ℚ) ^ fracDigits.length)
  let scaled : ℚ :=
    if expNeg then base / ((10 : ℚ) ^ digitsToNat expDigits)
    else base * ((10 : ℚ) ^ digitsToNat expDigits)
  some ((if neg then -scaled else scaled), l4)

mutual

/-- Recursive-descent JSON value routine; fuel bounds the nesting depth. -/
def parseVal (fuel : Nat) (l : List Char) : Option (JVal × List Char) :=
  match fuel with
  | 0 => none
  | fuel + 1 =>
    let l := l.dropWhile isJsonWs
    match l with
    | 'n' :: 'u' :: 'l' :: 'l' :: rest => some (.null, rest)
    | 't' :: 'r' :: 'u' :: 'e' :: rest => some (.bool true, rest)
    | 'f' :: 'a' :: 'l' :: 's' :: 'e' :: rest => some (.bool false, rest)
    | '"' :: rest =>
      (parseStringBody rest).map fun (cs, rem) => (.str ⟨cs⟩, rem)
    | '[' :: rest =>
      let rest1 := rest.dropWhile isJsonWs
      match rest1 with
      | ']' :: rem => some (.arr [], rem)
      | _ => (parseArrItems fuel rest).map fun (es, rem) => (.arr es, rem)
    | '\x7b' :: rest =>
      let rest1 := rest.dropWhile isJsonWs
      match rest1 with
      | '\x7d' :: rem => some (.obj [], rem)
      | _ => (parseObjItems fuel rest).map fun (fs, rem) => (.obj fs, rem)
    | _ => (parseJsonNumber l).map fun (q, rem) => (.num q, rem)

/-- Parse one or more comma-separated array elements and the closing
bracket. -/
def parseArrItems (fuel : Nat) (l : List Char) : Option (List JVal × List Char) :=
  match fuel with
  | 0 => none
  | fuel + 1 =>
    match parseVal fuel l with
    | none => none
    | some (v, rest) =>
      let rest1 := rest.dropWhile isJsonWs
      match rest1 with
      | ',' :: rest2 =>
        (parseArrItems fuel rest2).map fun (es, rem) => (v :: es, rem)
      | ']' :: rest2 => some ([v], rest2)
      | _ => none

/-- Parse one or more comma-separated object members and the closing
brace. -/
def parseObjItems (fuel : Nat) (l : List Char) : Option (List (String × JVal) × List Char) :=
  match fuel with
  | 0 => none
  | fuel + 1 =>
    let l1 := l.dropWhile isJsonWs
    match l1 with
    | '"' :: rest =>
      match parseStringBody rest with
      | none => none
      | some (key, rest1) =>
        let rest2 := rest1.dropWhile isJsonWs
        match rest2 with
        | ':' :: rest3 =>
          match parseVal fuel rest3 with
          | none => none
          | some (v, rest4) =>
            let rest5 := rest4.dropWhile isJsonWs
            match rest5 with
            | ',' :: rest6 =>
              (parseObjItems fuel rest6).map fun (fs, rem) => ((⟨key⟩, v) :: fs, rem)
            | '\x7d' :: rest6 => some ([(⟨key⟩, v)], rest6)
            | _ => none
        | _ => none
    | _ => none

end

/-- Model of JSON.parse: parse a complete JSON document, requiring the
whole input to be consumed. -/
def jsonParse (s : String) : Option JVal :=
  match parseVal (s.data.length + 1) s.data with
  | none => none
  | some (v, rest) => if (rest.dropWhile isJsonWs).isEmpty then some v else none

/-- Lookup of an object field; the last binding wins, as in JavaScript
object construction. -/
def lookupLast : List (String × JVal) → String → Option JVal
  | [], _ => none
  | (k, v) :: rest, key =>
    match lookupLast rest key with
    | some r => some r
    | none => if k == key then some v else none

/-- Property access on a JSON value (undefined is none). -/
def jGet : JVal → String → Option JVal
  | .obj fs, k => lookupLast fs k
  | _, _ => none

/-- Optional-chaining property access. -/
def jGetO (v : Option JVal) (k : String) : Option JVal := v.bind (fun j => jGet j k)

/-- Extract a string-typed field (the declared TypeScript type of the
fields read this way is string). -/
def jStr? : Option JVal → Option String
  | some (.str s) => some s
  | _ => none

/-- Extract a number-typed field. -/
def jNum? : Option JVal → Option ℚ
  | some (.num q) => some q
  | _ => none

/-- Extract a string-array field, keeping the string elements (the declared
TypeScript element type is string). -/
def jStrList? : Option JVal → Option (List String)
  | some (.arr l) => some (l.filterMap (fun v => match v with | .str s => some s | _ => none))
  | _ => none

/-! ## Data model of the analysis memo (lib/types shapes used by the code) -/

/-- Founder record from MemoV1.company_overview.founders, with the loosely
typed phone fields probed by the contact directory. -/
structure Founder where
  name : String := ""
  email : Option String := none
  phone : Option String := none
  phone_number : Option String := none
  contact_number : Option String := none
  professional_background : Option String := none
  previous_ventures : Option String := none
  education : Option String := none

structure CompanyOverview where
  name : Option String := none
  sector : Option String := none
  technology : Option String := none
  founders : Option (List Founder) := none

structure UnitEconomics where
  customer_lifetime_value_ltv : Option String := none
  customer_acquisition_cost_cac : Option String := none

structure BusinessModel where
  revenue_streams : Option String := none
  pricing : Option String := none
  scalability : Option String := none
  unit_economics : Option UnitEconomics := none

structure Tam where
  value : Option String := none
  cagr : Option String := none

structure IndustrySizeGrowth where
  total_addressable_market : Option Tam := none
  commentary : Option String := none

structure MarketAnalysis where
  industry_size_and_growth : Option IndustrySizeGrowth := none
  recent_news : Option String := none

structure SrrMrr where
  current_booked_arr : Option String := none
  current_mrr : Option String := none

structure BurnRunway where
  implied_net_burn : Option String := none
  stated_runway : Option String := none
  funding_ask : Option String := none

structure Financials where
  srr_mrr : Option SrrMrr := none
  burn_and_runway : Option BurnRunway := none
  valuation_rationale : Option String := none
  funding_history : Option String := none

structure RiskMetrics where
  composite_risk_score : Option ℚ := none
  score_interpretation : Option String := none
  narrative_justification : Option String := none

/-- Partial memo shape consumed by the chatbot (SafeMemo in the source). -/
structure SafeMemo where
  company_overview : Option CompanyOverview := none
  business_model : Option BusinessModel := none
  market_analysis : Option MarketAnalysis := none
  financials : Option Financials := none
  risk_metrics : Option RiskMetrics := none

/-- Output of safeParseAnalysis. -/
structure ParsedAnalysis where
  companyName : Option String := none
  productName : Option String := none
  sector : Option String := none
  memo : Option SafeMemo := none
  metadataFounders : Option (List String) := none

/-! ## Extraction of the typed shapes from a parsed JSON value -/

def extractFounder (j : JVal) : Founder :=
  { name := (jStr? (jGet j "name")).getD ""
    email := jStr? (jGet j "email")
    phone := jStr? (jGet j "phone")
    phone_number := jStr? (jGet j "phone_number")
    contact_number := jStr? (jGet j "contact_number")
    professional_background := jStr? (jGet j "professional_background")
    previous_ventures := jStr? (jGet j "previous_ventures")
    education := jStr? (jGet j "education") }

def extractCompanyOverview (j : JVal) : CompanyOverview :=
  { name := jStr? (jGet j "name")
    sector := jStr? (jGet j "sector")
    technology := jStr? (jGet j "technology")
    founders := match jGet j "founders" with
      | some (.arr l) => some (l.map extractFounder)
      | _ => none }

def extractUnitEconomics (j : JVal) : UnitEconomics :=
  { customer_lifetime_value_ltv := jStr? (jGet j "customer_lifetime_value_ltv")
    customer_acquisition_cost_cac := jStr? (jGet j "customer_acquisition_cost_cac") }

def extractBusinessModel (j : JVal) : BusinessModel :=
  { revenue_streams := jStr? (jGet j "revenue_streams")
    pricing := jStr? (jGet j "pricing")
    scalability := jStr? (jGet j "scalability")
    unit_economics := (jGet j "unit_economics").map extractUnitEconomics }

def extractTam (j : JVal) : Tam :=
  { value := jStr? (jGet j "value")
    cagr := jStr? (jGet j "cagr") }

def extractIndustrySizeGrowth (j : JVal) : IndustrySizeGrowth :=
  { total_addressable_market := (jGet j "total_addressable_market").map extractTam
    commentary := jStr? (jGet j "commentary") }

def extractMarketAnalysis (j : JVal) : MarketAnalysis :=
  { industry_size_and_growth := (jGet j "industry_size_and_growth").map extractIndustrySizeGrowth
    recent_news := jStr? (jGet j "recent_news") }

def extractSrrMrr (j : JVal) : SrrMrr :=
  { current_booked_arr := jStr? (jGet j "current_booked_arr")
    current_mrr := jStr? (jGet j "current_mrr") }

def extractBurnRunway (j : JVal) : BurnRunway :=
  { implied_net_burn := jStr? (jGet j "implied_net_burn")
    stated_runway := jStr? (jGet j "stated_runway")
    funding_ask := jStr? (jGet j "funding_ask") }

def extractFinancials (j : JVal) : Financials :=
  { srr_mrr := (jGet j "srr_mrr").map extractSrrMrr
    burn_and_runway := (jGet j "burn_and_runway").map extractBurnRunway
    valuation_rationale := jStr? (jGet j "valuation_rationale")
    funding_history := jStr? (jGet j "funding_history") }

def extractRiskMetrics (j : JVal) : RiskMetrics :=
  { composite_risk_score := jNum? (jGet j "composite_risk_score")
    score_interpretation := jStr? (jGet j "score_interpretation")
    narrative_justification := jStr? (jGet j "narrative_justification") }

def extractSafeMemo (j : JVal) : SafeMemo :=
  { company_overview := (jGet j "company_overview").map extractCompanyOverview
    business_model := (jGet j "business_model").map extractBusinessModel
    market_analysis := (jGet j "market_analysis").map extractMarketAnalysis
    financials := (jGet j "financials").map extractFinancials
    risk_metrics := (jGet j "risk_metrics").map extractRiskMetrics }

/-- Embedding of safeParseAnalysis from startup-interviewer.ts: parse the
raw JSON string, falling back to the empty record when JSON.parse throws;
otherwise read company name, product name, sector, memo (draft_v1 with the
memo object itself as nullish fallback) and metadata founder names. -/
def safeParseAnalysis (json : String) : ParsedAnalysis :=
  match jsonParse json with
  | none => {}
  | some parsed =>
    let metadata := jGet parsed "metadata"
    let memoJ := jGet parsed "memo"
    let draft : Option JVal :=
      match jGetO memoJ "draft_v1" with
      | some .null => none
      | other => other
    let memoEff := match draft with | some d => some d | none => memoJ
    { companyName := jStr? (jGetO metadata "company_name") <|>
        jStr? (jGetO (jGetO draft "company_overview") "name")
      productName := jStr? (jGetO metadata "product_name") <|>
        jStr? (jGetO (jGetO draft "company_overview") "technology")
      sector := jStr? (jGetO metadata "sector") <|>
        jStr? (jGetO (jGetO draft "company_overview") "sector")
      memo := memoEff.map extractSafeMemo
      metadataFounders := jStrList? (jGetO metadata "founder_names") }

/-! ## Text helpers of the chatbot -/

/-- Rendering of a JS number into a message string; integer scores render
as decimal literals. This abstracts the JS number-to-string conversion; no
claim below inspects the rendered digits. -/
def jsNumToString (q : ℚ) : String := if q.den == 1 then toString q.num else toString q

/-- Embedding of cleanText: nullish or empty input gives undefined,
otherwise whitespace runs collapse to single spaces and the ends are
trimmed. -/
def cleanText : Option String → Option String
  | none => none
  | some s => if s == "" then none else some (jsTrim (collapseWs s))

/-- Embedding of formatList with the default conjunction. -/
def formatList (values : List String) (conj : String := "and") : String :=
  match values with
  | [] => ""
  | [x] => x
  | _ => joinSep ", " values.dropLast ++ " " ++ conj ++ " " ++ values.getLastD ""

/-- Embedding of formatCompanyIntro. -/
def formatCompanyIntro (p : ParsedAnalysis) : String :=
  let parts : List String :=
    (if optTruthy p.companyName then [p.companyName.getD ""] else ["this startup"]) ++
    (if optTruthy p.productName && !(p.productName == p.companyName) then
      ["(Product: " ++ p.productName.getD "" ++ ")"] else []) ++
    (if optTruthy p.sector then ["in the " ++ p.sector.getD "" ++ " space"] else [])
  joinSep " " parts

/-- Embedding of summariseFounders. -/
def summariseFounders (memo : Option SafeMemo) (metadataFounders : Option (List String)) :
    Option String :=
  let founders : List Founder := ((memo.bind (·.company_overview)).bind (·.founders)).getD []
  if !founders.isEmpty then
    let details := founders.map (fun f =>
      let background := joinSep "; "
        ((([cleanText f.professional_background, cleanText f.previous_ventures,
            cleanText f.education]).filterMap id).filter (fun s => !(s == "")))
      if !(background == "") then f.name ++ " " ++ "(" ++ background ++ ")" else f.name)
    some (formatList details)
  else
    match metadataFounders with
    | some l => if !l.isEmpty then some (formatList l) else none
    | none => none

/-- Embedding of summariseMarket. -/
def summariseMarket (market : Option MarketAnalysis) : Option String :=
  match market with
  | none => none
  | some m =>
    let isg := m.industry_size_and_growth
    let tam := cleanText ((isg.bind (·.total_addressable_market)).bind (·.value))
    let cagr := cleanText ((isg.bind (·.total_addressable_market)).bind (·.cagr))
    let commentary := cleanText (isg.bind (·.commentary))
    let parts : List String :=
      (if optTruthy tam then ["TAM around " ++ tam.getD ""] else []) ++
      (if optTruthy cagr then ["growth at " ++ cagr.getD ""] else []) ++
      (if optTruthy commentary then [commentary.getD ""] else [])
    some (joinSep ". " parts)

/-- Embedding of summariseFinancials. -/
def summariseFinancials (financials : Option Financials) : Option String :=
  match financials with
  | none => none
  | some f =>
    let arr := cleanText ((f.srr_mrr).bind (·.current_booked_arr))
    let mrr := cleanText ((f.srr_mrr).bind (·.current_mrr))
    let burn := cleanText ((f.burn_and_runway).bind (·.implied_net_burn))
    let runway := cleanText ((f.burn_and_runway).bind (·.stated_runway))
    let valuation := cleanText f.valuation_rationale
    let parts : List String :=
      (if optTruthy arr then ["Booked ARR: " ++ arr.getD ""] else []) ++
      (if optTruthy mrr then ["Current MRR: " ++ mrr.getD ""] else []) ++
      (if optTruthy burn || optTruthy runway then
        ["Runway plan: " ++ joinSep ", "
          ((([burn, runway]).filterMap id).filter (fun s => !(s == "")))] else []) ++
      (if optTruthy valuation then ["Valuation rationale: " ++ valuation.getD ""] else [])
    some (joinSep ". " parts)

/-- Embedding of summariseBusinessModel. -/
def summariseBusinessModel (model : Option BusinessModel) : Option String :=
  match model with
  | none => none
  | some m =>
    let revenue := cleanText m.revenue_streams
    let pricing := cleanText m.pricing
    let scalability := cleanText m.scalability
    let ltv := cleanText ((m.unit_economics).bind (·.customer_lifetime_value_ltv))
    let cac := cleanText ((m.unit_economics).bind (·.customer_acquisition_cost_cac))
    let parts : List String :=
      (if optTruthy revenue then ["Revenue streams: " ++ revenue.getD ""] else []) ++
      (if optTruthy pricing then ["Pricing: " ++ pricing.getD ""] else []) ++
      (if optTruthy scalability then ["Scalability: " ++ scalability.getD ""] else []) ++
      (if optTruthy ltv || optTruthy cac then
        ["Unit economics: " ++ joinSep " vs "
          ((([ltv, cac]).filterMap id).filter (fun s => !(s == "")))] else [])
    some (joinSep ". " parts)

/-- Embedding of summariseRisk. -/
def summariseRisk (memo : Option SafeMemo) : Option String :=
  let rm := memo.bind (·.risk_metrics)
  let score := rm.bind (·.composite_risk_score)
  let interpretation := cleanText (rm.bind (·.score_interpretation))
  let narrative := cleanText (rm.bind (·.narrative_justification))
  let parts : List String :=
    (match score with
      | some q => ["Composite risk score " ++ jsNumToString q]
      | none => []) ++
    (if optTruthy interpretation then ["Interpretation: " ++ interpretation.getD ""] else []) ++
    (if optTruthy narrative then [narrative.getD ""] else [])
  some (joinSep ". " parts)

/-! ## Canned questions of the deterministic interviewer (later revision of
startup-interviewer.ts, the one defining runDeterministicFallback) -/

def buildMissionQuestion (p : ParsedAnalysis) : String :=
  let intro := formatCompanyIntro p
  let bm := p.memo.bind (·.business_model)
  let differentiator :=
    match cleanText (bm.bind (·.scalability)) with
    | some d => some d
    | none => cleanText (bm.bind (·.revenue_streams))
  let focus :=
    if optTruthy differentiator then
      "The materials emphasise " ++ differentiator.getD "" ++ "."
    else "The materials outline mission and near-term milestones at a high level."
  "Mission & execution for " ++ intro ++ ": " ++ focus ++
    " I can unpack those mission claims or pivot to another diligence lens—just say the word."

def buildMarketQuestion (p : ParsedAnalysis) : String :=
  let ma := p.memo.bind (·.market_analysis)
  let market := ((ma.bind (·.industry_size_and_growth)).bind
    (·.total_addressable_market)).bind (·.value)
  let commentary := (ma.bind (·.industry_size_and_growth)).bind (·.commentary)
  let intro := formatCompanyIntro p
  let detail :=
    match cleanText market with
    | some d => some d
    | none => cleanText commentary
  let context :=
    if optTruthy detail then "Key market signal: " ++ detail.getD "" ++ "."
    else "The deck highlights a sizeable market but offers limited quant detail."
  "Market diligence on " ++ intro ++ ": " ++ context ++
    " Let me know if you want a deeper breakdown or prefer to explore another area."

def buildProductQuestion (p : ParsedAnalysis) : String :=
  let intro := formatCompanyIntro p
  let bm := p.memo.bind (·.business_model)
  let differentiation :=
    match cleanText (bm.bind (·.scalability)) with
    | some d => some d
    | none => cleanText ((bm.bind (·.unit_economics)).bind (·.customer_lifetime_value_ltv))
  let hook :=
    if optTruthy differentiation then
      "The deck leans on differentiation around " ++ differentiation.getD "" ++ "."
    else "The moat narrative is still developing."
  "Product moat for " ++ intro ++ ": " ++ hook ++
    " I can summarise product defensibility signals or we can move to another diligence topic."

def buildGtmQuestion (p : ParsedAnalysis) : String :=
  let recentNews := (p.memo.bind (·.market_analysis)).bind (·.recent_news)
  let intro := formatCompanyIntro p
  let reference :=
    if optTruthy (cleanText recentNews) then
      "Recent activity notes: " ++ (cleanText recentNews).getD "" ++ "."
    else "Pipeline commentary is included but light on specifics."
  "Go-to-market for " ++ intro ++ ": " ++ reference ++
    " Happy to dive into channels, conversion, or expansion if that helps your diligence."

def buildFinancialQuestion (p : ParsedAnalysis) : String :=
  let br := (p.memo.bind (·.financials)).bind (·.burn_and_runway)
  let burn := br.bind (·.implied_net_burn)
  let runway := br.bind (·.stated_runway)
  let intro := formatCompanyIntro p
  let tag := joinSep " and "
    ((([cleanText burn, cleanText runway]).filterMap id).filter (fun s => !(s == "")))
  let framing :=
    if !(tag == "") then "Runway planning calls out " ++ tag ++ "."
    else "Financial disclosures are directional but not exhaustive."
  "Financial outlook for " ++ intro ++ ": " ++ framing ++
    " I can walk through revenue traction, burn, or projections—just let me know what matters most."

def buildRiskQuestion (p : ParsedAnalysis) : String :=
  let rm := p.memo.bind (·.risk_metrics)
  let riskScore := rm.bind (·.composite_risk_score)
  let interpretation := rm.bind (·.score_interpretation)
  let intro := formatCompanyIntro p
  let baseline :=
    match riskScore with
    | some q => "Composite risk score comes in around " ++ jsNumToString q ++ "."
    | none => "Risk commentary is fairly high level."
  let followUp :=
    if optTruthy (cleanText interpretation) then
      "Interpretation: \"" ++ (cleanText interpretation).getD "" ++ ".\""
    else ""
  "Risk signals for " ++ intro ++ ": " ++ baseline ++ " " ++ followUp ++
    " Call out if you want me to weigh the biggest flags or move to another angle."

/-! ## Topic sequencing -/

inductive TopicId where
  | mission | market | product | goToMarket | financials | risk
deriving DecidableEq, Repr

/-- Topic identifiers in the order of TOPIC_SEQUENCE. -/
def TOPIC_SEQUENCE : List TopicId :=
  [.mission, .market, .product, .goToMarket, .financials, .risk]

/-- Source-level spelling of each topic identifier; note the mixed-case
goToMarket literal. -/
def topicStr : TopicId → String
  | .mission => "mission"
  | .market => "market"
  | .product => "product"
  | .goToMarket => "goToMarket"
  | .financials => "financials"
  | .risk => "risk"

/-- Lookup table QUESTION_BUILDERS. -/
def questionBuilder : TopicId → ParsedAnalysis → String
  | .mission => buildMissionQuestion
  | .market => buildMarketQuestion
  | .product => buildProductQuestion
  | .goToMarket => buildGtmQuestion
  | .financials => buildFinancialQuestion
  | .risk => buildRiskQuestion

inductive ChatRole where
  | user | model
deriving DecidableEq, Repr

structure ChatMsg where
  role : ChatRole
  content : String

/-- Membership test of the askedTopics set built by the reduce over model
messages: a topic is asked when some model message's lower-cased content
contains the topic identifier verbatim. -/
def askedTopic (history : List ChatMsg) (t : TopicId) : Bool :=
  (history.filter (fun m => m.role == ChatRole.model)).any
    (fun m => strIncludes (asciiLower m.content) (topicStr t))

/-- Next topic choice: the first sequence entry not in askedTopics, with
risk as the final fallback. -/
def nextTopic (history : List ChatMsg) : TopicId :=
  match TOPIC_SEQUENCE.find? (fun t => !askedTopic history t) with
  | some t => t
  | none => .risk

/-- Embedding of buildInitialGreeting (later revision). -/
def buildInitialGreeting (p : ParsedAnalysis) : String :=
  let intro := formatCompanyIntro p
  let founders := summariseFounders p.memo p.metadataFounders
  let market := summariseMarket (p.memo.bind (·.market_analysis))
  let pieces : List String :=
    ["Hi there! I've reviewed " ++ intro ++ " for you."] ++
    (if optTruthy founders then ["Team snapshot: " ++ founders.getD "" ++ "."] else []) ++
    (if optTruthy market then ["Market signals: " ++ market.getD "" ++ "."] else []) ++
    ["Let me know which diligence area you want to explore—team, market, product, go-to-market, financials, or risk."]
  joinSep " " pieces

/-! ## Intent handlers -/

structure IntentHandler where
  keywords : List String
  handler : ParsedAnalysis → Option String

def handlerTeam (p : ParsedAnalysis) : Option String :=
  let foundersSummary := summariseFounders p.memo p.metadataFounders
  if !optTruthy foundersSummary then none
  else
    let intro := formatCompanyIntro p
    some ("The leadership for " ++ intro ++ " includes " ++ foundersSummary.getD "" ++ ".")

def handlerProduct (p : ParsedAnalysis) : Option String :=
  let name := formatCompanyIntro p
  let technology := cleanText ((p.memo.bind (·.company_overview)).bind (·.technology))
  let businessModel := summariseBusinessModel (p.memo.bind (·.business_model))
  let parts : List String :=
    [name ++ " positions its product as " ++
      technology.getD "a focused solution serving its core customers."] ++
    (if optTruthy businessModel then [businessModel.getD ""] else [])
  some (joinSep " " parts)

def handlerMarket (p : ParsedAnalysis) : Option String :=
  let intro := formatCompanyIntro p
  let market := summariseMarket (p.memo.bind (·.market_analysis))
  if !optTruthy market then
    some (intro ++ " is targeting a growing market, though the deck did not provide additional detail.")
  else some (intro ++ " is targeting " ++ market.getD "" ++ ".")

def handlerFinance (p : ParsedAnalysis) : Option String :=
  let financials := summariseFinancials (p.memo.bind (·.financials))
  if !optTruthy financials then
    some "The uploaded materials did not include detailed financials. You may need to request them from the team."
  else some (financials.getD "")

def handlerRisk (p : ParsedAnalysis) : Option String :=
  let risk := summariseRisk p.memo
  if !optTruthy risk then
    some "The risk summary was not available in the memo. Please review the raw materials for additional signals."
  else some (risk.getD "")

def handlerMission (p : ParsedAnalysis) : Option String :=
  let business := summariseBusinessModel (p.memo.bind (·.business_model))
  let intro := formatCompanyIntro p
  if optTruthy business then
    some (intro ++ " is focused on executing this plan: " ++ business.getD "")
  else some (intro ++ " did not provide detailed mission statements beyond the summary deck.")

def handlerSummary (p : ParsedAnalysis) : Option String :=
  let intro := formatCompanyIntro p
  let founders := summariseFounders p.memo p.metadataFounders
  let market := summariseMarket (p.memo.bind (·.market_analysis))
  let business := summariseBusinessModel (p.memo.bind (·.business_model))
  let financials := summariseFinancials (p.memo.bind (·.financials))
  let pieces : List String :=
    [intro ++ " is highlighted in the memo."] ++
    (if optTruthy founders then ["Key people: " ++ founders.getD "" ++ "."] else []) ++
    (if optTruthy market then ["Market context: " ++ market.getD "" ++ "."] else []) ++
    (if optTruthy business then [business.getD ""] else []) ++
    (if optTruthy financials then [financials.getD ""] else [])
  some (joinSep " " pieces)

/-- The ordered intent handler table (team, product, market, financials,
risk, mission, summary). -/
def INTENT_HANDLERS : List IntentHandler :=
  [⟨["founder", "team", "ceo", "cto", "people"], handlerTeam⟩,
   ⟨["product", "solution", "technology", "offering"], handlerProduct⟩,
   ⟨["market", "tam", "sam", "customers", "segment"], handlerMarket⟩,
   ⟨["finance", "financial", "revenue", "mrr", "arr", "runway", "valuation", "burn"], handlerFinance⟩,
   ⟨["risk", "safety", "concern", "challenge"], handlerRisk⟩,
   ⟨["mission", "vision", "goal", "milestone"], handlerMission⟩,
   ⟨["summary", "overview", "deal", "company"], handlerSummary⟩]

/-- Keyword match of one handler against the lower-cased question. -/
def handlerMatches (q : String) (h : IntentHandler) : Bool :=
  h.keywords.any (fun k => strIncludes (asciiLower q) k)

/-- Default reply assembled after the handler loop falls through. -/
def defaultSummary (p : ParsedAnalysis) : String :=
  let intro := formatCompanyIntro p
  let business := summariseBusinessModel (p.memo.bind (·.business_model))
  let market := summariseMarket (p.memo.bind (·.market_analysis))
  let risk := summariseRisk p.memo
  let defaultParts : List String :=
    [intro ++ " is summarised in the memo you uploaded."] ++
    (if optTruthy business then [business.getD ""] else []) ++
    (if optTruthy market then ["Market context: " ++ market.getD "" ++ "."] else []) ++
    (if optTruthy risk then [risk.getD ""] else [])
  joinSep " " defaultParts

/-- Handler loop of buildIntentResponse: first keyword-matching handler
with a truthy response wins; otherwise continue, ending at the default
summary. -/
def runHandlers (q : String) (p : ParsedAnalysis) : List IntentHandler → String
  | [] => defaultSummary p
  | h :: rest =>
    if handlerMatches q h then
      match h.handler p with
      | some r => if r == "" then runHandlers q p rest else r
      | none => runHandlers q p rest
    else runHandlers q p rest

/-- Embedding of buildIntentResponse. -/
def buildIntentResponse (q : String) (p : ParsedAnalysis) : String :=
  runHandlers q p INTENT_HANDLERS

/-- Embedding of runDeterministicFallback, returning the message field of
the output record. Empty history yields the initial greeting; a history
whose last message is not from the user yields the canned question for the
next topic; otherwise the last user message is answered through the intent
handlers. -/
def runDeterministicFallback (analysisData : String) (history : List ChatMsg) : String :=
  let parsedAnalysis := safeParseAnalysis analysisData
  match history.getLast? with
  | none => buildInitialGreeting parsedAnalysis
  | some m =>
    if m.role == ChatRole.user then buildIntentResponse m.content parsedAnalysis
    else questionBuilder (nextTopic history) parsedAnalysis

/-! ## Analysis data shape shared by the dashboard pages -/

/-- Metadata block of an analysis document, with the fields the pages
read. Loosely shaped payload fields (founder_contacts, public_data) are
kept as raw JSON values. -/
structure Metadata where
  status : Option String := none
  error : Option String := none
  company_name : Option String := none
  display_name : Option String := none
  company_legal_name : Option String := none
  product_name : Option String := none
  sector : Option String := none
  founder_names : Option (List String) := none
  founder_emails : Option (List String) := none
  contact_email : Option String := none
  contact_phone : Option String := none
  contact_number : Option String := none
  founder_contacts : Option JVal := none

structure MemoWrap where
  draft_v1 : Option SafeMemo := none

/-- Analysis document returned by the deals API. -/
structure AnalysisData where
  deal_id : String := ""
  metadata : Option Metadata := none
  memo : Option MemoWrap := none
  public_data : Option JVal := none

/-! ## Polling loop of the startup analysis page -/

def POLL_INTERVAL_MS : Nat := 5000

def MAX_POLL_ATTEMPTS : Nat := 24

/-- Embedding of shouldContinuePolling from startup/[startupId]/page.tsx.
Null data stops; a truthy metadata error or a lower-cased status equal to
error stops; the presence of a memo draft stops; anything else continues. -/
def shouldContinuePolling (data : Option AnalysisData) : Bool :=
  match data with
  | none => false
  | some d =>
    let normalizedStatus := (d.metadata.bind (·.status)).map asciiLower
    let hasMemo := (d.memo.bind (·.draft_v1)).isSome
    let hasError := optTruthy (d.metadata.bind (·.error))
    if hasError || normalizedStatus == some "error" then false
    else if normalizedStatus == some "processed" && hasMemo then false
    else if hasMemo then false
    else true

/-- Network outcome of one fetch of the deals endpoint. -/
inductive FetchOutcome where
  | ok (d : AnalysisData)
  | failed

/-- Observable result of the effect loop: how many fetches ran, and the
final polling flags. -/
structure PollResult where
  fetchCount : Nat
  timedOut : Bool
  polling : Bool

/-- Embedding of fetchAndMaybeSchedule: attempts is the current value of
pollAttemptsRef; each recursive call is one scheduled re-fetch. A failed
fetch takes the catch branch and stops; data that should not be polled
again stops; once the attempt budget is spent the timed-out flag is set. -/
def runPollFrom (stream : Nat → FetchOutcome) (idx attempts : Nat) : PollResult :=
  match stream idx with
  | .failed => ⟨1, false, false⟩
  | .ok d =>
    if shouldContinuePolling (some d) then
      if attempts ≥ MAX_POLL_ATTEMPTS then ⟨1, true, false⟩
      else
        let rest := runPollFrom stream (idx + 1) (attempts + 1)
        ⟨rest.fetchCount + 1, rest.timedOut, rest.polling⟩
    else ⟨1, false, false⟩
termination_by MAX_POLL_ATTEMPTS - attempts
decreasing_by
  simp only [MAX_POLL_ATTEMPTS] at *
  omega

/-- Whole polling run, starting from pollAttemptsRef.current = 0. -/
def runPoll (stream : Nat → FetchOutcome) : PollResult := runPollFrom stream 0 0

/-! ## Founder contact directory (startup-contact-directory.tsx) -/

/-- Character classes of the email regex
[A-Z0-9._%+-]+@[A-Z0-9.-]+\.[A-Z]\x7b2,\x7d with the i flag. -/
def isEmailLocalChar (c : Char) : Bool :=
  ('A' ≤ c && c ≤ 'Z') || ('a' ≤ c && c ≤ 'z') || ('0' ≤ c && c ≤ '9') ||
  c == '.' || c == '_' || c == '%' || c == '+' || c == '-'

def isEmailDomChar (c : Char) : Bool :=
  ('A' ≤ c && c ≤ 'Z') || ('a' ≤ c && c ≤ 'z') || ('0' ≤ c && c ≤ '9') ||
  c == '.' || c == '-'

def isAsciiAlpha (c : Char) : Bool :=
  ('A' ≤ c && c ≤ 'Z') || ('a' ≤ c && c ≤ 'z')

/-- Backtracking search of the email regex tail (dot then two or more
letters) inside a suffix of the domain-class run: the greedy one-or-more
domain class backtracks from the longest prefix, so the latest dot
followed by at least two letters wins; the letters after it are taken
greedily. The returned list is the part of the suffix consumed by the
match. -/
def domSearchAux : List Char → Option (List Char)
  | [] => none
  | c :: rest =>
    match domSearchAux rest with
    | some consumed => some (c :: consumed)
    | none =>
      if c == '.' then
        let run := rest.takeWhile isAsciiAlpha
        if 2 ≤ run.length then some ('.' :: run) else none
      else none

/-- Attempt to match the email regex at the start of the input, returning
the match and the rest of the input. The local-part run must be maximal
and immediately followed by the at sign; the first domain character is
consumed by the one-or-more domain class, so only later dots can serve as
the final dot. -/
def emailMatchAt (l : List Char) : Option (List Char × List Char) :=
  let localRun := l.takeWhile isEmailLocalChar
  if localRun.isEmpty then none
  else
    match l.drop localRun.length with
    | '@' :: afterAt =>
      let domRun := afterAt.takeWhile isEmailDomChar
      match domRun with
      | [] => none
      | c :: restS =>
        match domSearchAux restS with
        | none => none
        | some consumed =>
          let dom := c :: consumed
          some (localRun ++ '@' :: dom, afterAt.drop dom.length)
    | _ => none

/-- Global scan of the email regex: successive leftmost matches, resuming
after each match end. -/
def emailScan (fuel : Nat) (l : List Char) : List (List Char) :=
  match fuel with
  | 0 => []
  | fuel + 1 =>
    match l with
    | [] => []
    | c :: rest =>
      match emailMatchAt (c :: rest) with
      | some (m, rem) => m :: emailScan fuel rem
      | none => emailScan fuel rest

/-- Model of value.match(EMAIL_REGEX) returning all matches. -/
def emailMatches (s : String) : List String :=
  (emailScan s.data.length s.data).map (fun l => ⟨l⟩)

mutual

/-- Embedding of collectEmails: walk a loosely typed payload, pushing the
email-regex matches of every truthy string. -/
def collectEmails : JVal → List String
  | .str s =>
    if s == "" then []
    else (emailMatches s).filterMap (fun m =>
      let trimmed := jsTrim m
      if trimmed == "" then none else some trimmed)
  | .num _ => []
  | .bool _ => []
  | .null => []
  | .arr l => collectEmailsList l
  | .obj o => collectEmailsObj o

def collectEmailsList : List JVal → List String
  | [] => []
  | x :: xs => collectEmails x ++ collectEmailsList xs

def collectEmailsObj : List (String × JVal) → List String
  | [] => []
  | (_, v) :: xs => collectEmails v ++ collectEmailsObj xs

end

/-- Falsy guard of collectEmails and collectPhoneNumbers: zero and false
payloads are skipped like null ones. -/
def digitsOnly (l : List Char) : List Char := l.filter isDigitChar

mutual

/-- Embedding of collectPhoneNumbers: strings without an at sign whose
digit count is at least seven (or whose object path mentions phone) are
pushed; the hint accumulates the object keys on the path. -/
def collectPhones (hint : String) : JVal → List String
  | .str s =>
    if s == "" then []
    else
      let trimmed := jsTrim s
      if trimmed == "" || strIncludes trimmed "@" then []
      else
        let digits := digitsOnly trimmed.data
        if 7 ≤ digits.length || strIncludes (asciiLower hint) "phone" then [trimmed]
        else []
  | .num _ => []
  | .bool _ => []
  | .null => []
  | .arr l => collectPhonesList hint l
  | .obj o => collectPhonesObj hint o

def collectPhonesList (hint : String) : List JVal → List String
  | [] => []
  | x :: xs => collectPhones hint x ++ collectPhonesList hint xs

def collectPhonesObj (hint : String) : List (String × JVal) → List String
  | [] => []
  | (k, v) :: xs =>
    let nextHint := if hint == "" then k else if k == "" then hint else hint ++ "." ++ k
    collectPhones nextHint v ++ collectPhonesObj hint xs

end

/-- Model of normaliseString on a string-or-missing value. -/
def normaliseStr : Option String → String
  | some s => jsTrim s
  | none => ""

/-- Embedding of deriveNameFromEmail: capitalise the words of the local
part after turning dot runs and underscores into spaces. -/
def deriveNameFromEmail (email : String) : Option String :=
  let localPart : List Char := email.data.takeWhile (fun c => !(c == '@'))
  if localPart.isEmpty then none
  else
    let spaced := (collapseDotRuns localPart).map (fun c => if c == '_' then ' ' else c)
    let words := ((splitOnSpace spaced).map (fun w => jsTrimL w)).filter (fun w => !w.isEmpty)
    let caps := words.map (fun w =>
      match w with
      | [] => ([] : List Char)
      | c :: rest => upperChar c :: rest)
    if caps.isEmpty then none
    else some ⟨joinCharLists ' ' caps⟩
where
  upperChar (c : Char) : Char :=
    if 'a' ≤ c ∧ c ≤ 'z' then Char.ofNat (c.toNat - 32) else c
  collapseDotRuns : List Char → List Char
  | [] => []
  | '.' :: rest =>
    match rest with
    | '.' :: _ => collapseDotRuns rest
    | _ => ' ' :: collapseDotRuns rest
  | c :: rest => c :: collapseDotRuns rest
  splitOnSpace : List Char → List (List Char)
  | [] => [[]]
  | ' ' :: rest => [] :: splitOnSpace rest
  | c :: rest =>
    match splitOnSpace rest with
    | [] => [[c]]
    | w :: ws => (c :: w) :: ws
  joinCharLists (sep : Char) : List (List Char) → List Char
  | [] => []
  | [w] => w
  | w :: x :: rest => w ++ sep :: joinCharLists sep (x :: rest)

/-- Embedding of ensureParsedObject: strings are parsed as JSON and kept
when the result is an object (arrays included); objects pass through;
everything else becomes the empty object. -/
def ensureParsedObject : Option JVal → JVal
  | none => .obj []
  | some v =>
    if !jTruthy v then .obj []
    else
      match v with
      | .str s =>
        match jsonParse s with
        | some (.obj o) => .obj o
        | some (.arr a) => .arr a
        | _ => .obj []
      | .obj o => .obj o
      | .arr a => .arr a
      | _ => .obj []

/-- Record stored per directory key. -/
structure DirRec where
  name : String
  emails : List String
  phones : List String

/-- Mutable state of buildFounderDirectory: the insertion-ordered map from
lower-cased name to record, plus the fallback counter. -/
structure DirSt where
  entries : List (String × DirRec)
  fallback : Nat

def emptyDirSt : DirSt := ⟨[], 1⟩

def dirHas (st : DirSt) (key : String) : Bool := st.entries.any (fun e => e.1 == key)

/-- Insertion-ordered set add. -/
def setAdd (l : List String) (x : String) : List String :=
  if l.contains x then l else l ++ [x]

/-- Embedding of ensureRecord: normalise the candidate name, falling back
to a numbered Founder name, and create the record under the lower-cased
key when absent. The returned key addresses the record for subsequent
mutation. -/
def ensureRecordSt (st : DirSt) (rawName : Option String) : DirSt × String :=
  let n0 := normaliseStr rawName
  let name := if n0 == "" then "Founder " ++ toString st.fallback else n0
  let fb := if n0 == "" then st.fallback + 1 else st.fallback
  let key := asciiLower name
  if dirHas st key then (⟨st.entries, fb⟩, key)
  else (⟨st.entries ++ [(key, ⟨name, [], []⟩)], fb⟩, key)

def dirModify (st : DirSt) (key : String) (f : DirRec → DirRec) : DirSt :=
  ⟨st.entries.map (fun e => if e.1 == key then (e.1, f e.2) else e), st.fallback⟩

/-- Embedding of addEmailToRecord. -/
def addEmailSt (st : DirSt) (nameCandidate : Option String) (email : String) : DirSt :=
  let trimmedEmail := jsTrim email
  if trimmedEmail == "" then st
  else
    let rawName : Option String :=
      if optTruthy nameCandidate then nameCandidate
      else deriveNameFromEmail trimmedEmail
    let (st2, key) := ensureRecordSt st rawName
    dirModify st2 key (fun r => ⟨r.name, setAdd r.emails trimmedEmail, r.phones⟩)

/-- Embedding of addPhoneToRecord. -/
def addPhoneSt (st : DirSt) (nameCandidate : Option String) (phone : String) : DirSt :=
  let trimmedPhone := jsTrim phone
  if trimmedPhone == "" then st
  else
    let (st2, key) := ensureRecordSt st nameCandidate
    dirModify st2 key (fun r => ⟨r.name, r.emails, setAdd r.phones trimmedPhone⟩)

/-- Step of the memoFounders forEach. -/
def addMemoFounder (st : DirSt) (idx : Nat) (f : Founder) : DirSt :=
  let name := if jsTrim f.name == "" then "Founder " ++ toString (idx + 1) else jsTrim f.name
  let (st2, key) := ensureRecordSt st (some name)
  let email := normaliseStr f.email
  if email == "" then st2
  else dirModify st2 key (fun r => ⟨r.name, setAdd r.emails email, r.phones⟩)

/-- Per-name phone bucket of the phoneNumbers map. -/
structure PhoneEnt where
  displayName : Option String
  phones : List String

/-- Embedding of registerPhone over the insertion-ordered phoneNumbers
map. -/
def registerPhone (pm : List (String × PhoneEnt)) (nameCandidate : Option String)
    (phone : String) : List (String × PhoneEnt) :=
  let trimmed := jsTrim phone
  if trimmed == "" then pm
  else
    let key := if optTruthy nameCandidate then asciiLower (nameCandidate.getD "")
      else "__primary__"
    let pm1 :=
      if pm.any (fun e => e.1 == key) then pm
      else pm ++ [(key, ⟨nameCandidate, []⟩)]
    pm1.map (fun e =>
      if e.1 == key then
        let dn := if optTruthy nameCandidate && !optTruthy e.2.displayName then nameCandidate
          else e.2.displayName
        (e.1, ⟨dn, setAdd e.2.phones trimmed⟩)
      else e)

/-- Distribution of one phoneNumbers bucket into the directory: named
buckets go to their record through addPhoneToRecord, while the primary
bucket lands in the first record, creating a Primary Contact record when
the directory is still empty. -/
def applyPhoneBucket (st : DirSt) (ent : String × PhoneEnt) : DirSt :=
  let (nameKey, pe) := ent
  if !(nameKey == "__primary__") && optTruthy pe.displayName then
    pe.phones.foldl (fun acc ph => addPhoneSt acc pe.displayName ph) st
  else
    match st.entries with
    | [] =>
      let (st2, key) := ensureRecordSt st (some "Primary Contact")
      pe.phones.foldl (fun acc ph =>
        dirModify acc key (fun r => ⟨r.name, r.emails, setAdd r.phones ph⟩)) st2
    | (k, _) :: _ =>
      pe.phones.foldl (fun acc ph =>
        dirModify acc k (fun r => ⟨r.name, r.emails, setAdd r.phones ph⟩)) st

/-- Contact entry produced by buildFounderDirectory. -/
structure FounderContact where
  id : String
  name : String
  companyName : String
  emails : List String
  phones : List String
deriving DecidableEq, Repr

/-- List deduplication keeping first occurrences, as a JS Set built by
repeated add. -/
def dedupKeepFirst (l : List String) : List String :=
  l.foldl (fun acc x => setAdd acc x) []

/-- Company display name resolution of buildFounderDirectory. -/
def directoryCompanyName (analysisData : AnalysisData) : String :=
  let dn := normaliseStr (analysisData.metadata.bind (·.display_name))
  let cn := normaliseStr (analysisData.metadata.bind (·.company_name))
  let ln := normaliseStr (analysisData.metadata.bind (·.company_legal_name))
  if !(dn == "") then dn else if !(cn == "") then cn else if !(ln == "") then ln
  else "Unknown Company"

/-- Directory map produced by the mutation sequence of
buildFounderDirectory, before the final array conversion. -/
def buildDirState (analysisData : AnalysisData) : DirSt :=
  let memoFounders : List Founder :=
    (((analysisData.memo.bind (·.draft_v1)).bind (·.company_overview)).bind (·.founders)).getD []
  let st0 := emptyDirSt
  let st1 := (memoFounders.enum.foldl (fun acc fi => addMemoFounder acc fi.1 fi.2) st0)
  let founderNames :=
    ((analysisData.metadata.bind (·.founder_names)).getD []).map jsTrim |>.filter
      (fun s => !(s == ""))
  let st2 := founderNames.foldl (fun acc n => (ensureRecordSt acc (some n)).1) st1
  let founderEmails :=
    ((analysisData.metadata.bind (·.founder_emails)).getD []).map jsTrim |>.filter
      (fun s => !(s == ""))
  let st3 :=
    if founderEmails.length == founderNames.length && 0 < founderEmails.length then
      (founderEmails.zip founderNames).foldl
        (fun acc en => addEmailSt acc (some en.2) en.1) st2
    else founderEmails.foldl (fun acc e => addEmailSt acc none e) st2
  let contactEmail := normaliseStr (analysisData.metadata.bind (·.contact_email))
  let st4 :=
    if !(contactEmail == "") then addEmailSt st3 founderNames.head? contactEmail else st3
  let metadataContacts := ensureParsedObject (analysisData.metadata.bind (·.founder_contacts))
  let publicPayload := ensureParsedObject analysisData.public_data
  let publicContacts := ensureParsedObject (jGet publicPayload "founder_contacts")
  let metadataEmails := dedupKeepFirst (collectEmails metadataContacts)
  let st5 := metadataEmails.foldl (fun acc e => addEmailSt acc none e) st4
  let publicEmails := dedupKeepFirst (collectEmails publicContacts)
  let st6 := publicEmails.foldl (fun acc e => addEmailSt acc none e) st5
  let pm0 : List (String × PhoneEnt) := []
  let pm1 := (collectPhones "" metadataContacts).foldl
    (fun acc ph => registerPhone acc none ph) pm0
  let pm2 := (collectPhones "" publicContacts).foldl
    (fun acc ph => registerPhone acc none ph) pm1
  let metadataPhoneCandidates :=
    ([normaliseStr (analysisData.metadata.bind (·.contact_phone)),
      normaliseStr (analysisData.metadata.bind (·.contact_number))]).filter
      (fun s => !(s == ""))
  let pm3 := metadataPhoneCandidates.foldl
    (fun acc ph => registerPhone acc founderNames.head? ph) pm2
  let memoFounderPhones := memoFounders.map (fun f =>
    let n := jsTrim f.name
    let p1 := normaliseStr f.phone
    let p2 := normaliseStr f.phone_number
    let p3 := normaliseStr f.contact_number
    (n, if !(p1 == "") then p1 else if !(p2 == "") then p2 else p3))
  let pm4 := memoFounderPhones.foldl (fun acc np =>
    if !(np.2 == "") then
      registerPhone acc (if np.1 == "" then none else some np.1) np.2
    else acc) pm3
  let st7 := pm4.foldl applyPhoneBucket st6
  if st7.entries.isEmpty then (ensureRecordSt st7 (some "Primary Contact")).1 else st7

/-- Embedding of buildFounderDirectory from
startup-contact-directory.tsx: run the mutation sequence and convert the
insertion-ordered map into the contact array. -/
def buildFounderDirectory (analysisData : AnalysisData) : List FounderContact :=
  let companyName := directoryCompanyName analysisData
  (buildDirState analysisData).entries.enum.map (fun ei =>
    ⟨analysisData.deal_id ++ "-" ++ toString ei.1, ei.2.2.name, companyName,
      ei.2.2.emails, ei.2.2.phones⟩)

/-! ## Meeting scheduler (handleSchedule) -/

/-- Calendar date selected in the picker; a JS Date object is always
truthy, so presence is modelled by Option. -/
structure CalDate where
  year : Nat
  month : Nat
  day : Nat

/-- Month names of the date-fns MMMM pattern. -/
def monthName (m : Nat) : String :=
  match m with
  | 1 => "January" | 2 => "February" | 3 => "March" | 4 => "April"
  | 5 => "May" | 6 => "June" | 7 => "July" | 8 => "August"
  | 9 => "September" | 10 => "October" | 11 => "November" | 12 => "December"
  | _ => ""

/-- Model of format(selectedDate, "MMMM d, yyyy"). -/
def formatMeetingDate (d : CalDate) : String :=
  monthName d.month ++ " " ++ toString d.day ++ ", " ++ toString d.year

/-- Digit-string parse of Number(...) restricted to the digit strings the
time input produces; non-numeric parts yield none, matching the NaN path
whose toLocaleTimeString output is the Invalid Date string. -/
def parseNatDigits (l : List Char) : Option Nat :=
  if !l.isEmpty && l.all isDigitChar then some (digitsToNat l) else none

/-- Split on the colon separator (value.split of a one-character
separator). -/
def splitOnColon : List Char → List (List Char)
  | [] => [[]]
  | ':' :: rest => [] :: splitOnColon rest
  | c :: rest =>
    match splitOnColon rest with
    | [] => [[c]]
    | w :: ws => (c :: w) :: ws

/-- Rendering of toLocaleTimeString en-US with numeric hour and 2-digit
minute. -/
def renderTime12 (h m : Nat) : String :=
  let total := h * 60 + m
  let hh := (total / 60) % 24
  let mm := total % 60
  let hour12 := if hh % 12 == 0 then 12 else hh % 12
  let ampm := if hh < 12 then "AM" else "PM"
  let mmStr := if mm < 10 then "0" ++ toString mm else toString mm
  toString hour12 ++ ":" ++ mmStr ++ " " ++ ampm

/-- Embedding of formatTime: empty input returns empty, input without a
colon is returned unchanged, and otherwise the two leading fields are read
as hour and minute. -/
def formatTime (value : String) : String :=
  if value == "" then ""
  else
    match splitOnColon value.data with
    | [] => value
    | [_] => value
    | h :: m :: _ =>
      match parseNatDigits h, parseNatDigits m with
      | some hn, some mn => renderTime12 hn mn
      | _, _ => "Invalid Date"

/-- Unreserved characters of encodeURIComponent. -/
def isUriUnreserved (c : Char) : Bool :=
  ('A' ≤ c && c ≤ 'Z') || ('a' ≤ c && c ≤ 'z') || ('0' ≤ c && c ≤ '9') ||
  c == '-' || c == '_' || c == '.' || c == '!' || c == '~' || c == '*' ||
  c == '\'' || c == '(' || c == ')'

def hexDigitChar (n : Nat) : Char :=
  if n < 10 then Char.ofNat ('0'.toNat + n) else Char.ofNat ('A'.toNat + n - 10)

/-- Percent-encoding of one byte. -/
def pctByte (b : Nat) : List Char := ['%', hexDigitChar (b / 16), hexDigitChar (b % 16)]

/-- UTF-8 bytes of a code point. -/
def utf8Bytes (n : Nat) : List Nat :=
  if n < 0x80 then [n]
  else if n < 0x800 then [0xC0 + n / 64, 0x80 + n % 64]
  else if n < 0x10000 then [0xE0 + n / 4096, 0x80 + (n / 64) % 64, 0x80 + n % 64]
  else [0xF0 + n / 262144, 0x80 + (n / 4096) % 64, 0x80 + (n / 64) % 64, 0x80 + n % 64]

/-- Model of encodeURIComponent. -/
def encodeURIComponent (s : String) : String :=
  ⟨s.data.flatMap (fun c =>
    if isUriUnreserved c then [c]
    else (utf8Bytes c.toNat).flatMap pctByte)⟩

/-- Gmail compose deep link template of handleSchedule. -/
def buildGmailUrl (recipients : List String) (subject body : String) : String :=
  "https://mail.google.com/mail/?view=cm&fs=1&to=" ++
    encodeURIComponent (joinSep "," recipients) ++
    "&su=" ++ encodeURIComponent subject ++
    "&body=" ++ encodeURIComponent body

/-- Observable outcome of the schedule click: either a destructive toast
(title and description) or a window.open of the composed URL. -/
inductive ScheduleOutcome where
  | toast (title description : String)
  | opened (url : String)
deriving DecidableEq, Repr

/-- Embedding of handleSchedule. The component state entering the handler
is passed explicitly: the derived founders directory, the selected ids,
the picked date and time, and the derived company name. -/
def handleSchedule (founders : List FounderContact) (selectedIds : List String)
    (selectedDate : Option CalDate) (selectedTime : String)
    (companyName : String) : ScheduleOutcome :=
  let foundersWithEmails := founders.filter (fun f => !f.emails.isEmpty)
  let selected := foundersWithEmails.filter (fun f => selectedIds.contains f.id)
  if selected.isEmpty then
    .toast "No contacts selected" "Please choose at least one founder with an email address."
  else if selectedDate.isNone || selectedTime == "" then
    .toast "Missing meeting details" "Select both a date and time for the meeting."
  else
    let recipientEmails := selected.flatMap (·.emails)
    if recipientEmails.isEmpty then
      .toast "No email addresses available"
        "The selected founders do not have email addresses to contact."
    else
      let formattedDate := formatMeetingDate (selectedDate.getD ⟨0, 0, 0⟩)
      let formattedTime := formatTime selectedTime
      let body := "Hi guys, Lets connect on " ++ formattedDate ++ " at " ++ formattedTime ++
        " for 30 mins to discuss further about the product from your company " ++
        companyName ++ ". Thank you."
      let subject := "Meeting Request - " ++ companyName
      .opened (buildGmailUrl recipientEmails subject body)

/-! ## Investor dashboard delete handler -/

/-- Backend outcome of the DELETE request. -/
inductive DeleteOutcome where
  | ok
  | httpError
  | threw
deriving DecidableEq, Repr

/-- Embedding of handleDelete from the investor dashboard: the displayed
list is optimistically filtered, and restored from the saved copy when the
request fails or throws. The Bool records whether the success toast was
shown. -/
def handleDelete (startups : List AnalysisData) (startupId : String)
    (outcome : DeleteOutcome) : List AnalysisData × Bool :=
  let originalStartups := startups
  let filtered := startups.filter (fun s => !(s.deal_id == startupId))
  match outcome with
  | .ok => (filtered, true)
  | .httpError => (originalStartups, false)
  | .threw => (originalStartups, false)

/-! ## Upload form (file-upload component) -/

/-- Embedding of the canGenerate guard. -/
def canGenerate (pitchDeck videoFile audioFile : Option String)
    (additionalInfo : String) : Bool :=
  pitchDeck.isSome || videoFile.isSome || audioFile.isSome || !(jsTrim additionalInfo == "")

/-- Embedding of handleUploadClick up to the network call: none means the
at-least-one-source validation failed and no request was sent; otherwise
the value is the multipart form body, which carries the pitch deck file
under pitch_deck when present and nothing else. -/
def handleUploadClick (pitchDeck videoFile audioFile : Option String)
    (additionalInfo : String) : Option (List (String × String)) :=
  if pitchDeck.isNone && videoFile.isNone && audioFile.isNone && jsTrim additionalInfo == "" then
    none
  else
    some (match pitchDeck with
      | some f => [("pitch_deck", f)]
      | none => [])

/-! ## Financial string parsing (financials.tsx) -/

/-- Placeholder tokens of isValueUnavailable, in source order. -/
def UNAVAILABLE_TOKENS : List String :=
  ["n/a", "na", "not available", "none", "unknown", "tbd", "-", "—", "pending",
   "not applicable"]

/-- Embedding of isValueUnavailable: nullish or blank values are
unavailable, as is any value whose trimmed lower-cased form contains one
of the placeholder tokens as a substring. -/
def isValueUnavailable : Option String → Bool
  | none => true
  | some v =>
    if v == "" then true
    else
      let normalized := asciiLower (jsTrim v)
      if normalized == "" then true
      else UNAVAILABLE_TOKENS.any (fun t => strIncludes normalized t)

def isLowerAlpha (c : Char) : Bool := 'a' ≤ c && c ≤ 'z'

/-- Accumulator pass splitting a character list into its maximal lowercase
alphabetic runs (the global matches of the letters-only regex). -/
def alphaRunsAux : List Char → List Char → List (List Char)
  | [], acc => if acc.isEmpty then [] else [acc.reverse]
  | c :: cs, acc =>
    if isLowerAlpha c then alphaRunsAux cs (c :: acc)
    else (if acc.isEmpty then [] else [acc.reverse]) ++ alphaRunsAux cs []

def alphaRuns (l : List Char) : List (List Char) := alphaRunsAux l []

/-- Decomposition produced by the first match of the number regex
-?digits(.digits)? : the text before the match, the sign, the integer and
fraction digits, and the text after the match. -/
structure NumScanResult where
  before : List Char
  neg : Bool
  intDigits : List Char
  fracDigits : List Char
  after : List Char
deriving Repr, DecidableEq

/-- Characters consumed by the match. -/
def matchedLexeme (r : NumScanResult) : List Char :=
  (if r.neg then ['-'] else []) ++ r.intDigits ++
    (if r.fracDigits.isEmpty then [] else '.' :: r.fracDigits)

/-- Digit-sequence match at the head of the input: one or more integer
digits, optionally a dot with one or more fraction digits. -/
def digitsAt (l : List Char) : Option (List Char × List Char × List Char) :=
  let ds := l.takeWhile isDigitChar
  if ds.isEmpty then none
  else
    let rest1 := l.drop ds.length
    match rest1 with
    | '.' :: t =>
      let fs := t.takeWhile isDigitChar
      if fs.isEmpty then some (ds, [], rest1)
      else some (ds, fs, t.drop fs.length)
    | _ => some (ds, [], rest1)

/-- Number match attempt at the head of the input, with the optional
leading minus sign of the regex. -/
def numAtHead : List Char → Option (Bool × List Char × List Char × List Char)
  | '-' :: rest => (digitsAt rest).map (fun (d, f, a) => (true, d, f, a))
  | l => (digitsAt l).map (fun (d, f, a) => (false, d, f, a))

/-- First match of the number regex over the whole input: positions are
tried left to right. -/
def numScan : List Char → Option NumScanResult
  | [] => none
  | c :: rest =>
    match numAtHead (c :: rest) with
    | some (n, d, f, a) => some ⟨[], n, d, f, a⟩
    | none => (numScan rest).map (fun r => { r with before := c :: r.before })

/-- Rational value of a matched decimal lexeme (parseFloat on the match,
exact in the rational model). -/
def numValue (r : NumScanResult) : ℚ :=
  let base : ℚ := (digitsToNat r.intDigits : ℚ) +
    (digitsToNat r.fracDigits : ℚ) / ((10 : ℚ) ^ r.fracDigits.length)
  if r.neg then -base else base

/-- The multipliers table of parseFinancialNumber. -/
def multiplierOf (t : String) : Option ℚ :=
  if t == "trillion" then some 1000000000000
  else if t == "tn" then some 1000000000000
  else if t == "t" then some 1000000000000
  else if t == "billion" then some 1000000000
  else if t == "bn" then some 1000000000
  else if t == "b" then some 1000000000
  else if t == "million" then some 1000000
  else if t == "mn" then some 1000000
  else if t == "mm" then some 1000000
  else if t == "thousand" then some 1000
  else if t == "k" then some 1000
  else if t == "crore" then some 10000000
  else if t == "crores" then some 10000000
  else if t == "cr" then some 10000000
  else if t == "lakh" then some 100000
  else if t == "lakhs" then some 100000
  else if t == "lac" then some 100000
  else none

/-- Model of replace(/,/g, ''). -/
def removeCommas (l : List Char) : List Char := l.filter (fun c => !(c == ','))

/-- Embedding of parseFinancialNumber. The trailing suffix-word lookup
applies the anchored letters regex to the text after the match; that text
is already lower-cased, so the lowercase class captures the
case-insensitive flag of the source. -/
def parseFinancialNumber (value : Option String) : Option ℚ :=
  if !optTruthy value || isValueUnavailable value then none
  else
    let v := value.getD ""
    let normalized := asciiLower (jsTrim v)
    let cleaned := removeCommas normalized.data
    match numScan cleaned with
    | none => none
    | some r =>
      let numeric := numValue r
      let tokens := (alphaRuns (r.before ++ ' ' :: r.after)).map
        (fun l => (⟨l⟩ : String))
      match tokens.findSome? multiplierOf with
      | some m => some (numeric * m)
      | none =>
        let suffixWord := (jsTrimL r.after).takeWhile isLowerAlpha
        if suffixWord.isEmpty then some numeric
        else
          match multiplierOf ⟨suffixWord⟩ with
          | some m => some (numeric * m)
          | none => some numeric

/-- Input domain of formatCurrencyValue; null covers both undefined and
null. -/
inductive CurrencyInput where
  | str (s : String)
  | num (q : ℚ)
  | null
deriving Repr

/-- Comma grouping of a reversed digit list. -/
def groupRev (ds : List Char) : List Char :=
  if _h : ds.length ≤ 3 then ds
  else ds.take 3 ++ ',' :: groupRev (ds.drop 3)
termination_by ds.length
decreasing_by
  simp only [List.length_drop]
  omega

/-- Decimal digits of a natural number with en-US thousands grouping. -/
def groupDigits (n : Nat) : String :=
  ⟨(groupRev (toString n).data.reverse).reverse⟩

/-- Model of the Intl.NumberFormat en-US USD output used by
formatCurrencyValue: at most two fraction digits below one, none
otherwise; half-away-from-zero rounding; minus sign before the dollar
sign. -/
def intlUSD (q : ℚ) : String :=
  let maxFrac : Nat := if |q| < 1 then 2 else 0
  let scaled := q * (10 : ℚ) ^ maxFrac
  let rounded : Int := if scaled < 0 then -(⌊|scaled| + 1/2⌋) else ⌊scaled + 1/2⌋
  let mag := rounded.natAbs
  let sign := if rounded < 0 then "-$" else "$"
  if maxFrac == 0 then sign ++ groupDigits mag
  else
    let ip := mag / 100
    let fp := mag % 100
    sign ++ groupDigits ip ++ "." ++ (if fp < 10 then "0" ++ toString fp else toString fp)

def isWordChar (c : Char) : Bool := isAsciiAlpha c || isDigitChar c || c == '_'

/-- Test of the anchored case-insensitive usd-with-word-boundary regex. -/
def usdHeadTest (l : List Char) : Bool :=
  match l with
  | u :: s :: d :: rest =>
    lowerChar u == 'u' && lowerChar s == 's' && lowerChar d == 'd' &&
      (match rest with | [] => true | c :: _ => !isWordChar c)
  | _ => false

/-- Embedding of formatCurrencyValue. -/
def formatCurrencyValue : CurrencyInput → String
  | .null => "N/A"
  | .num q => intlUSD q
  | .str s =>
    if isValueUnavailable (some s) then "N/A"
    else
      match parseFinancialNumber (some s) with
      | some n => intlUSD n
      | none =>
        let trimmed := jsTrim s
        if trimmed == "" then "N/A"
        else if listPrefixOf ['$'] trimmed.data then trimmed
        else if usdHeadTest trimmed.data then "$" ++ jsTrim ⟨trimmed.data.drop 3⟩
        else "$" ++ trimmed

/-! ## Claim-side definitions (statements following the words of the
specification, for comparison with the embedded code) -/

/-- Claim statement C2: the reply equals the output of the first handler,
in the fixed order, whose keywords match and whose handler returns a
non-undefined response; otherwise the default summary. -/
def claimIntentReply (q : String) (p : ParsedAnalysis) : String :=
  match INTENT_HANDLERS.findSome?
    (fun h => if handlerMatches q h then h.handler p else none) with
  | some r => r
  | none => defaultSummary p

/-- Claim statement C6 (literal reading): a topic counts as already asked
when its name occurs case-insensitively in an earlier model message, so
both sides of the containment test are lower-cased. -/
def claimTopicMentionedCI (history : List ChatMsg) (t : TopicId) : Bool :=
  history.any (fun m =>
    m.role == ChatRole.model &&
      strIncludes (asciiLower m.content) (asciiLower (topicStr t)))

def claimNextTopicCI (history : List ChatMsg) : TopicId :=
  match TOPIC_SEQUENCE.find? (fun t => !claimTopicMentionedCI history t) with
  | some t => t
  | none => .risk

/-- Claim statement C6 (literal reading) of the scripted prompt. -/
def claimScriptedReplyCI (analysisData : String) (history : List ChatMsg) : String :=
  if history.isEmpty then buildInitialGreeting (safeParseAnalysis analysisData)
  else questionBuilder (claimNextTopicCI history) (safeParseAnalysis analysisData)

/-- Amended C6 mention test: the lower-cased model message must contain
the topic identifier verbatim, so the mixed-case goToMarket identifier is
never detected. -/
def claimTopicMentioned (history : List ChatMsg) (t : TopicId) : Bool :=
  history.any (fun m =>
    m.role == ChatRole.model && strIncludes (asciiLower m.content) (topicStr t))

def claimNextTopic (history : List ChatMsg) : TopicId :=
  match TOPIC_SEQUENCE.find? (fun t => !claimTopicMentioned history t) with
  | some t => t
  | none => .risk

/-- Claim statement C7 (literal reading): the multiplier table as
enumerated by the claim, which omits the crores spelling. -/
def claimMultiplierLiteral (t : String) : Option ℚ :=
  if t == "trillion" then some 1000000000000
  else if t == "tn" then some 1000000000000
  else if t == "t" then some 1000000000000
  else if t == "billion" then some 1000000000
  else if t == "bn" then some 1000000000
  else if t == "b" then some 1000000000
  else if t == "million" then some 1000000
  else if t == "mn" then some 1000000
  else if t == "mm" then some 1000000
  else if t == "thousand" then some 1000
  else if t == "k" then some 1000
  else if t == "crore" then some 10000000
  else if t == "cr" then some 10000000
  else if t == "lakh" then some 100000
  else if t == "lakhs" then some 100000
  else if t == "lac" then some 100000
  else none

/-- Claim statement C7 parameterised by the multiplier table: null on
unavailable or digit-free input; otherwise the first number times the
multiplier of its first recognised magnitude word, or the bare number. -/
def claimParseWith (table : String → Option ℚ) (value : Option String) : Option ℚ :=
  if !optTruthy value || isValueUnavailable value then none
  else
    let v := value.getD ""
    let normalized := asciiLower (jsTrim v)
    let cleaned := removeCommas normalized.data
    match numScan cleaned with
    | none => none
    | some r =>
      let tokens := (alphaRuns (r.before ++ ' ' :: r.after)).map
        (fun l => (⟨l⟩ : String))
      match tokens.findSome? table with
      | some m => some (numValue r * m)
      | none => some (numValue r)

/-- Claim statement C7 with the claim's literal table. -/
def claimParseLiteral (value : Option String) : Option ℚ :=
  claimParseWith claimMultiplierLiteral value

/-- Claim statement C7 amended to include the crores spelling present in
the source table. -/
def claimParseAmended (value : Option String) : Option ℚ :=
  claimParseWith multiplierOf value

/-- Terminal analysis data in the sense of claim C3: a memo draft is
present, or the metadata carries a truthy error, or the status is error
up to case. -/
def terminalData (d : AnalysisData) : Bool :=
  (d.memo.bind (·.draft_v1)).isSome ||
  optTruthy (d.metadata.bind (·.error)) ||
  ((d.metadata.bind (·.status)).map asciiLower == some "error")

/-- Analysis document with no derivable founder data, exercising the
synthetic Primary Contact path of claim C8. -/
def emptyAnalysis : AnalysisData := {}

/-- Invariant of the directory state: keys are pairwise distinct, each key
is the lower-cased record name, and every record's email and phone lists
are duplicate-free. -/
def DirInv (st : DirSt) : Prop :=
  (st.entries.map Prod.fst).Nodup ∧
  ∀ e ∈ st.entries, asciiLower e.2.name = e.1 ∧ e.2.emails.Nodup ∧ e.2.phones.Nodup

/-! # Theorems -/

set_option maxRecDepth 100000

/-! ## String helper lemmas -/

theorem str_ne_empty_of_data {a : String} (h : a.data ≠ []) : a ≠ "" := by
  intro hc
  subst hc
  exact h rfl

theorem append_ne_empty_left (a b : String) (h : a ≠ "") : a ++ b ≠ "" := by
  intro hc
  apply h
  have hd : (a ++ b).data = ([] : List Char) := by rw [hc]
  rw [String.data_append] at hd
  have ha : a.data = [] := (List.append_eq_nil.mp hd).1
  cases a with
  | mk d =>
    have hd2 : d = [] := ha
    rw [hd2]

theorem joinSep_ne_empty (sep x : String) (rest : List String) (h : x ≠ "") :
    joinSep sep (x :: rest) ≠ "" := by
  cases rest with
  | nil => simpa [joinSep] using h
  | cons y r =>
    show x ++ sep ++ joinSep sep (y :: r) ≠ ""
    exact append_ne_empty_left _ _ (append_ne_empty_left _ _ h)

theorem optTruthy_getD_ne {o : Option String} (h : optTruthy o = true) :
    o.getD "" ≠ "" := by
  cases o with
  | none => simp [optTruthy] at h
  | some s =>
    simp only [optTruthy, Bool.not_eq_eq_eq_not, Bool.not_false] at h
    simpa [Option.getD] using (beq_eq_false_iff_ne.mp (by simpa using h))

theorem formatCompanyIntro_ne (p : ParsedAnalysis) : formatCompanyIntro p ≠ "" := by
  unfold formatCompanyIntro
  by_cases h : optTruthy p.companyName
  · rw [if_pos h]
    exact joinSep_ne_empty _ _ _ (optTruthy_getD_ne h)
  · rw [if_neg h]
    exact joinSep_ne_empty _ _ _ (by decide)

/-! ## Non-emptiness of handler responses -/

theorem handlerTeam_ne (p : ParsedAnalysis) (r : String)
    (h : handlerTeam p = some r) : r ≠ "" := by
  by_cases ht : optTruthy (summariseFounders p.memo p.metadataFounders)
  · simp only [handlerTeam, ht, Bool.not_true, Bool.false_eq_true, if_false,
      Option.some.injEq] at h
    rw [← h]
    exact append_ne_empty_left _ _ (append_ne_empty_left _ _ (append_ne_empty_left _ _
      (append_ne_empty_left _ _ (show ("The leadership for " : String) ≠ "" by decide))))
  · simp only [Bool.not_eq_true] at ht
    simp [handlerTeam, ht] at h

theorem handlerProduct_ne (p : ParsedAnalysis) (r : String)
    (h : handlerProduct p = some r) : r ≠ "" := by
  simp only [handlerProduct, Option.some.injEq] at h
  rw [← h]
  apply joinSep_ne_empty
  exact append_ne_empty_left _ _ (append_ne_empty_left _ _ (formatCompanyIntro_ne p))

theorem handlerMarket_ne (p : ParsedAnalysis) (r : String)
    (h : handlerMarket p = some r) : r ≠ "" := by
  by_cases hm : optTruthy (summariseMarket (p.memo.bind (·.market_analysis)))
  · simp only [handlerMarket, hm, Bool.not_true, Bool.false_eq_true, if_false,
      Option.some.injEq] at h
    rw [← h]
    exact append_ne_empty_left _ _ (append_ne_empty_left _ _
      (append_ne_empty_left _ _ (formatCompanyIntro_ne p)))
  · simp only [Bool.not_eq_true] at hm
    simp only [handlerMarket, hm, Bool.not_false, if_true, Option.some.injEq] at h
    rw [← h]
    exact append_ne_empty_left _ _ (formatCompanyIntro_ne p)

theorem handlerFinance_ne (p : ParsedAnalysis) (r : String)
    (h : handlerFinance p = some r) : r ≠ "" := by
  by_cases hf : optTruthy (summariseFinancials (p.memo.bind (·.financials)))
  · simp only [handlerFinance, hf, Bool.not_true, Bool.false_eq_true, if_false,
      Option.some.injEq] at h
    rw [← h]
    exact optTruthy_getD_ne hf
  · simp only [Bool.not_eq_true] at hf
    simp only [handlerFinance, hf, Bool.not_false, if_true, Option.some.injEq] at h
    rw [← h]
    decide

theorem handlerRisk_ne (p : ParsedAnalysis) (r : String)
    (h : handlerRisk p = some r) : r ≠ "" := by
  by_cases hf : optTruthy (summariseRisk p.memo)
  · simp only [handlerRisk, hf, Bool.not_true, Bool.false_eq_true, if_false,
      Option.some.injEq] at h
    rw [← h]
    exact optTruthy_getD_ne hf
  · simp only [Bool.not_eq_true] at hf
    simp only [handlerRisk, hf, Bool.not_false, if_true, Option.some.injEq] at h
    rw [← h]
    decide

theorem handlerMission_ne (p : ParsedAnalysis) (r : String)
    (h : handlerMission p = some r) : r ≠ "" := by
  by_cases hb : optTruthy (summariseBusinessModel (p.memo.bind (·.business_model)))
  · simp only [handlerMission, hb, if_true, Option.some.injEq] at h
    rw [← h]
    exact append_ne_empty_left _ _ (append_ne_empty_left _ _ (formatCompanyIntro_ne p))
  · simp only [Bool.not_eq_true] at hb
    simp only [handlerMission, hb, Bool.false_eq_true, if_false, Option.some.injEq] at h
    rw [← h]
    exact append_ne_empty_left _ _ (formatCompanyIntro_ne p)

theorem handlerSummary_ne (p : ParsedAnalysis) (r : String)
    (h : handlerSummary p = some r) : r ≠ "" := by
  simp only [handlerSummary, Option.some.injEq] at h
  rw [← h]
  apply joinSep_ne_empty
  exact append_ne_empty_left _ _ (formatCompanyIntro_ne p)

theorem handlers_result_ne (p : ParsedAnalysis) :
    ∀ h ∈ INTENT_HANDLERS, ∀ r, h.handler p = some r → r ≠ "" := by
  intro h hmem r hr
  simp only [INTENT_HANDLERS, List.mem_cons, List.not_mem_nil, or_false] at hmem
  rcases hmem with rfl | rfl | rfl | rfl | rfl | rfl | rfl
  · exact handlerTeam_ne p r hr
  · exact handlerProduct_ne p r hr
  · exact handlerMarket_ne p r hr
  · exact handlerFinance_ne p r hr
  · exact handlerRisk_ne p r hr
  · exact handlerMission_ne p r hr
  · exact handlerSummary_ne p r hr

/-- Handler loop versus first-match selection: when no handler can answer
with the empty string, continuing past declining handlers agrees with
taking the first matching handler whose result is defined. -/
theorem runHandlers_eq_findSome (q : String) (p : ParsedAnalysis)
    (hs : List IntentHandler)
    (hne : ∀ h ∈ hs, ∀ r, h.handler p = some r → r ≠ "") :
    runHandlers q p hs =
      match hs.findSome? (fun h => if handlerMatches q h then h.handler p else none) with
      | some r => r
      | none => defaultSummary p := by
  induction hs with
  | nil => simp [runHandlers, List.findSome?]
  | cons h t ih =>
    have hne_t : ∀ h2 ∈ t, ∀ r, h2.handler p = some r → r ≠ "" :=
      fun h2 hm r hr => hne h2 (List.mem_cons_of_mem _ hm) r hr
    simp only [runHandlers, List.findSome?_cons]
    by_cases hm : handlerMatches q h
    · simp only [hm, if_true]
      cases hh : h.handler p with
      | none => exact ih hne_t
      | some r =>
        have hr : (r == "") = false :=
          beq_eq_false_iff_ne.mpr (hne h (List.mem_cons_self _ _) r hh)
        simp only [hr, Bool.false_eq_true, if_false]
    · simp only [Bool.not_eq_true] at hm
      simp only [hm, Bool.false_eq_true, if_false]
      exact ih hne_t

/-! ## Claim C1: determinism of the scripted chatbot -/

/-- C1: the scripted chat response is deterministic: two invocations of
the deterministic fallback with identical analysis-data strings and
identical histories return the identical message, and the message is a
function of those two inputs alone. -/
theorem chatbot_deterministic (a1 a2 : String) (h1 h2 : List ChatMsg)
    (ha : a1 = a2) (hh : h1 = h2) :
    runDeterministicFallback a1 h1 = runDeterministicFallback a2 h2 := by
  rw [ha, hh]

/-- Witness for C1 at a concrete analysis string and history. -/
theorem chatbot_deterministic_witness :
    runDeterministicFallback "" [⟨ChatRole.user, "team"⟩] =
      runDeterministicFallback "" [⟨ChatRole.user, "team"⟩] :=
  chatbot_deterministic "" "" [⟨ChatRole.user, "team"⟩] [⟨ChatRole.user, "team"⟩] rfl rfl

/-! ## Claim C2: intent handler selection -/

/-- C2: whenever the last history message is from the user, the reply
equals the output of the first handler, in the fixed order (team, product,
market, financials, risk, mission, summary), whose keywords occur in the
lower-cased user message and whose handler returns a defined response;
when no handler matches or all matching handlers decline, the reply is the
default summary built from the business model, market, and risk
sections. -/
theorem chatbot_user_reply (a : String) (h : List ChatMsg) (m : ChatMsg)
    (hlast : h.getLast? = some m) (hrole : m.role = ChatRole.user) :
    runDeterministicFallback a h = claimIntentReply m.content (safeParseAnalysis a) := by
  unfold runDeterministicFallback
  rw [hlast]
  show (if m.role == ChatRole.user then
      buildIntentResponse m.content (safeParseAnalysis a)
    else questionBuilder (nextTopic h) (safeParseAnalysis a)) = _
  rw [hrole]
  simp only [beq_self_eq_true, if_true]
  unfold buildIntentResponse claimIntentReply
  exact runHandlers_eq_findSome _ _ _ (handlers_result_ne _)

/-- Witness for C2 at a concrete history ending in a user message. -/
theorem chatbot_user_reply_witness :
    runDeterministicFallback "" [⟨ChatRole.user, "team"⟩] =
      claimIntentReply "team" (safeParseAnalysis "") :=
  chatbot_user_reply "" [⟨ChatRole.user, "team"⟩] ⟨ChatRole.user, "team"⟩ rfl rfl

/-! ## Claim C6: scripted prompts and topic sequencing -/

theorem askedTopic_eq_claimMentioned (h : List ChatMsg) (t : TopicId) :
    askedTopic h t = claimTopicMentioned h t := by
  unfold askedTopic claimTopicMentioned
  induction h with
  | nil => rfl
  | cons m rest ih =>
    by_cases hr : (m.role == ChatRole.model) = true
    · simp [List.filter_cons, List.any_cons, hr, ih]
    · simp only [Bool.not_eq_true] at hr
      simp [List.filter_cons, List.any_cons, hr, ih]

/-- C6 counterexample: with one model message whose lower-cased content
contains all of mission, market, product and gotomarket, the claim's
case-insensitive reading marks four topics as asked and expects the
financials question, but the code never detects the mixed-case goToMarket
identifier inside a lower-cased message and asks the go-to-market question
instead. -/
theorem chatbot_next_topic_counterexample :
    runDeterministicFallback "" [⟨ChatRole.model, "mission market product gotomarket"⟩] ≠
      claimScriptedReplyCI "" [⟨ChatRole.model, "mission market product gotomarket"⟩] := by
  decide

/-- C6 (amended): with an empty history the scripted path returns the
initial greeting; with a non-empty history not ending in a user message it
returns the canned question for the first topic of the sequence whose
identifier does not occur verbatim in any lower-cased model message (so
goToMarket is never detected as asked), with risk as the final
fallback. -/
theorem chatbot_scripted_prompts (a : String) (h : List ChatMsg) :
    (h = [] → runDeterministicFallback a h = buildInitialGreeting (safeParseAnalysis a)) ∧
    (∀ m, h.getLast? = some m → m.role ≠ ChatRole.user →
      runDeterministicFallback a h =
        questionBuilder (claimNextTopic h) (safeParseAnalysis a)) := by
  constructor
  · intro he
    subst he
    rfl
  · intro m hlast hrole
    unfold runDeterministicFallback
    rw [hlast]
    show (if m.role == ChatRole.user then
        buildIntentResponse m.content (safeParseAnalysis a)
      else questionBuilder (nextTopic h) (safeParseAnalysis a)) = _
    have hfalse : (m.role == ChatRole.user) = false := by
      cases hmr : m.role
      · exact absurd hmr hrole
      · rfl
    rw [hfalse]
    simp only [Bool.false_eq_true, if_false]
    have hnt : nextTopic h = claimNextTopic h := by
      unfold nextTopic claimNextTopic
      have heq : (fun t => !askedTopic h t) = (fun t => !claimTopicMentioned h t) := by
        funext t
        rw [askedTopic_eq_claimMentioned]
      rw [heq]
    rw [hnt]

/-- Witness for C6 (amended) at a concrete model-final history. -/
theorem chatbot_scripted_prompts_witness :
    runDeterministicFallback "" [⟨ChatRole.model, "greetings"⟩] =
      questionBuilder (claimNextTopic [⟨ChatRole.model, "greetings"⟩])
        (safeParseAnalysis "") :=
  (chatbot_scripted_prompts "" [⟨ChatRole.model, "greetings"⟩]).2
    ⟨ChatRole.model, "greetings"⟩ rfl (by decide)

/-! ## Claim C3: the polling loop always stops -/

theorem shouldContinue_bool_aux (e m : Bool) (st : Option String) :
    (if e || st == some "error" then false
     else if st == some "processed" && m then false
     else if m then false else true) =
    !(m || e || st == some "error") := by
  cases e
  · cases m
    · by_cases h : (st == some "error") = true
      · simp [h]
      · rw [Bool.not_eq_true] at h
        simp [h]
    · by_cases h : (st == some "error") = true
      · simp [h]
      · rw [Bool.not_eq_true] at h
        simp [h]
  · simp

theorem shouldContinuePolling_eq_not_terminal (d : AnalysisData) :
    shouldContinuePolling (some d) = !(terminalData d) :=
  shouldContinue_bool_aux (optTruthy (d.metadata.bind (·.error)))
    ((d.memo.bind (·.draft_v1)).isSome)
    ((d.metadata.bind (·.status)).map asciiLower)

theorem runPollFrom_count_le (stream : Nat → FetchOutcome) :
    ∀ d idx attempts, MAX_POLL_ATTEMPTS - attempts = d →
      (runPollFrom stream idx attempts).fetchCount ≤ d + 1 := by
  intro d
  induction d with
  | zero =>
    intro idx attempts hd
    have hge : attempts ≥ MAX_POLL_ATTEMPTS := by omega
    rw [runPollFrom]
    cases stream idx with
    | failed => exact le_refl 1
    | ok d2 =>
      by_cases hc : shouldContinuePolling (some d2)
      · simp [hc, hge]
      · simp [hc]
  | succ n ih =>
    intro idx attempts hd
    rw [runPollFrom]
    cases stream idx with
    | failed => exact Nat.le_add_left 1 _
    | ok d2 =>
      by_cases hc : shouldContinuePolling (some d2)
      · by_cases hge : attempts ≥ MAX_POLL_ATTEMPTS
        · simp [hc, hge]
        · simp only [hc, if_true, hge, if_false]
          have hrec := ih (idx + 1) (attempts + 1) (by omega)
          omega
      · simp [hc]

theorem runPollFrom_mid_fetches (stream : Nat → FetchOutcome) :
    ∀ d idx attempts, MAX_POLL_ATTEMPTS - attempts = d →
      ∀ j, j + 1 < (runPollFrom stream idx attempts).fetchCount →
        ∃ dd, stream (idx + j) = FetchOutcome.ok dd ∧
          shouldContinuePolling (some dd) = true := by
  intro d
  induction d with
  | zero =>
    intro idx attempts hd j hj
    have := runPollFrom_count_le stream 0 idx attempts hd
    omega
  | succ n ih =>
    intro idx attempts hd j hj
    rw [runPollFrom] at hj
    cases hstream : stream idx with
    | failed => rw [hstream] at hj; simp at hj
    | ok d2 =>
      rw [hstream] at hj
      by_cases hc : shouldContinuePolling (some d2)
      · by_cases hge : attempts ≥ MAX_POLL_ATTEMPTS
        · simp [hc, hge] at hj
        · simp only [hc, if_true, hge, if_false] at hj
          cases j with
          | zero => exact ⟨d2, by simpa using hstream, hc⟩
          | succ k =>
            have hk := ih (idx + 1) (attempts + 1) (by omega) k (by omega)
            have haddr : idx + 1 + k = idx + (k + 1) := by omega
            rw [haddr] at hk
            exact hk
      · simp [hc] at hj

theorem runPollFrom_all_continue (stream : Nat → FetchOutcome)
    (hall : ∀ j, ∃ dd, stream j = FetchOutcome.ok dd ∧
      shouldContinuePolling (some dd) = true) :
    ∀ d idx attempts, MAX_POLL_ATTEMPTS - attempts = d →
      (runPollFrom stream idx attempts).timedOut = true ∧
      (runPollFrom stream idx attempts).fetchCount = d + 1 := by
  intro d
  induction d with
  | zero =>
    intro idx attempts hd
    obtain ⟨dd, hok, hc⟩ := hall idx
    have hge : attempts ≥ MAX_POLL_ATTEMPTS := by omega
    rw [runPollFrom, hok]
    simp [hc, hge]
  | succ n ih =>
    intro idx attempts hd
    obtain ⟨dd, hok, hc⟩ := hall idx
    have hlt : ¬attempts ≥ MAX_POLL_ATTEMPTS := by omega
    rw [runPollFrom, hok]
    simp only [hc, if_true, hlt, if_false]
    have hrec := ih (idx + 1) (attempts + 1) (by omega)
    simp only [hrec.1, hrec.2, true_and]

/-- C3: the polling loop always stops. The attempt cap is 24 with a
five-second interval; polling never continues past data that has a memo
draft, a truthy metadata error, or a status equal to error up to case (and
conversely continues otherwise); every run performs at most 25 fetches
(one initial fetch plus at most 24 re-fetches); every fetch before the
last one returned pollable data; and when every fetch keeps returning
pollable data the run performs exactly 25 fetches and ends with the
timed-out flag set. -/
theorem polling_always_stops :
    MAX_POLL_ATTEMPTS = 24 ∧ POLL_INTERVAL_MS = 5000 ∧
    (∀ d, shouldContinuePolling (some d) = false ↔ terminalData d = true) ∧
    (∀ stream, (runPoll stream).fetchCount ≤ MAX_POLL_ATTEMPTS + 1) ∧
    (∀ stream j, j + 1 < (runPoll stream).fetchCount →
      ∃ d, stream j = FetchOutcome.ok d ∧ shouldContinuePolling (some d) = true) ∧
    (∀ stream,
      (∀ j, ∃ d, stream j = FetchOutcome.ok d ∧ shouldContinuePolling (some d) = true) →
      (runPoll stream).timedOut = true ∧
      (runPoll stream).fetchCount = MAX_POLL_ATTEMPTS + 1) := by
  refine ⟨rfl, rfl, ?_, ?_, ?_, ?_⟩
  · intro d
    rw [shouldContinuePolling_eq_not_terminal]
    cases terminalData d <;> simp
  · intro stream
    exact runPollFrom_count_le stream MAX_POLL_ATTEMPTS 0 0 rfl
  · intro stream j hj
    have := runPollFrom_mid_fetches stream MAX_POLL_ATTEMPTS 0 0 rfl j hj
    simpa using this
  · intro stream hall
    exact runPollFrom_all_continue stream hall MAX_POLL_ATTEMPTS 0 0 rfl

/-- Witness for C3: a stream that always returns processable but
memo-free data exhausts the attempt budget and sets the timed-out flag
after exactly 25 fetches. -/
theorem polling_always_stops_witness :
    (runPoll (fun _ => FetchOutcome.ok emptyAnalysis)).timedOut = true ∧
    (runPoll (fun _ => FetchOutcome.ok emptyAnalysis)).fetchCount = MAX_POLL_ATTEMPTS + 1 :=
  polling_always_stops.2.2.2.2.2 (fun _ => FetchOutcome.ok emptyAnalysis)
    (fun _ => ⟨emptyAnalysis, rfl, by decide⟩)

/-! ## Claim C4: scheduling founder contact -/

/-- C4 counterexample: the schedule action with one selected founder and a
chosen date and time opens a Gmail web compose URL; the opened link does
not use the mailto scheme, refuting the claim's characterisation of the
deep link as a mailto link. -/
theorem schedule_mailto_counterexample :
    handleSchedule [⟨"d-0", "Alice", "Acme", ["a@x.com"], []⟩] ["d-0"]
        (some ⟨2026, 10, 11⟩) "14:30" "Acme" =
      ScheduleOutcome.opened
        "https://mail.google.com/mail/?view=cm&fs=1&to=a%40x.com&su=Meeting%20Request%20-%20Acme&body=Hi%20guys%2C%20Lets%20connect%20on%20October%2011%2C%202026%20at%202%3A30%20PM%20for%2030%20mins%20to%20discuss%20further%20about%20the%20product%20from%20your%20company%20Acme.%20Thank%20you." ∧
    listPrefixOf ("mailto:".data)
      ("https://mail.google.com/mail/?view=cm&fs=1&to=a%40x.com&su=Meeting%20Request%20-%20Acme&body=Hi%20guys%2C%20Lets%20connect%20on%20October%2011%2C%202026%20at%202%3A30%20PM%20for%2030%20mins%20to%20discuss%20further%20about%20the%20product%20from%20your%20company%20Acme.%20Thank%20you.".data)
      = false := by
  decide

/-- C4 (amended): given at least one selected founder with an email
address and a chosen date and time, the schedule action opens a Gmail web
compose deep link whose recipients are exactly the selected founders'
email addresses, whose subject is Meeting Request followed by the company
name, and whose body embeds the formatted date and time; if no contact is
selected, or the date or time is missing, it shows a destructive toast and
opens nothing. -/
theorem schedule_meeting (founders : List FounderContact) (selectedIds : List String)
    (date : Option CalDate) (time : String) (company : String) :
    (∀ d,
      (founders.filter (fun f => !f.emails.isEmpty)).filter
          (fun f => selectedIds.contains f.id) ≠ [] →
      date = some d → time ≠ "" →
      handleSchedule founders selectedIds date time company =
        ScheduleOutcome.opened (buildGmailUrl
          (((founders.filter (fun f => !f.emails.isEmpty)).filter
            (fun f => selectedIds.contains f.id)).flatMap (·.emails))
          ("Meeting Request - " ++ company)
          ("Hi guys, Lets connect on " ++ formatMeetingDate d ++ " at " ++
            formatTime time ++
            " for 30 mins to discuss further about the product from your company " ++
            company ++ ". Thank you."))) ∧
    ((founders.filter (fun f => !f.emails.isEmpty)).filter
        (fun f => selectedIds.contains f.id) = [] →
      handleSchedule founders selectedIds date time company =
        ScheduleOutcome.toast "No contacts selected"
          "Please choose at least one founder with an email address.") ∧
    ((founders.filter (fun f => !f.emails.isEmpty)).filter
        (fun f => selectedIds.contains f.id) ≠ [] → (date = none ∨ time = "") →
      handleSchedule founders selectedIds date time company =
        ScheduleOutcome.toast "Missing meeting details"
          "Select both a date and time for the meeting.") := by
  refine ⟨?_, ?_, ?_⟩
  · intro d hne hdate htime
    subst hdate
    have hempty : ((founders.filter (fun f => !f.emails.isEmpty)).filter
        (fun f => selectedIds.contains f.id)).isEmpty = false := by
      cases hsel : (founders.filter (fun f => !f.emails.isEmpty)).filter
          (fun f => selectedIds.contains f.id) with
      | nil => exact absurd hsel hne
      | cons a t => rfl
    have htf : (time == "") = false := beq_eq_false_iff_ne.mpr htime
    have hrne : (((founders.filter (fun f => !f.emails.isEmpty)).filter
        (fun f => selectedIds.contains f.id)).flatMap (·.emails)).isEmpty = false := by
      cases hsel : (founders.filter (fun f => !f.emails.isEmpty)).filter
          (fun f => selectedIds.contains f.id) with
      | nil => exact absurd hsel hne
      | cons a t =>
        have hmem : a ∈ (founders.filter (fun f => !f.emails.isEmpty)).filter
            (fun f => selectedIds.contains f.id) := by
          rw [hsel]
          exact List.mem_cons_self _ _
        have hmem2 : a ∈ founders.filter (fun f => !f.emails.isEmpty) :=
          (List.mem_filter.mp hmem).1
        have hane : ¬a.emails.isEmpty = true := by
          have := (List.mem_filter.mp hmem2).2
          simp only [Bool.not_eq_true'] at this
          simp [this]
        simp only [List.flatMap_cons]
        cases hae : a.emails with
        | nil => rw [hae] at hane; exact absurd rfl hane
        | cons e es => simp
    simp only [handleSchedule]
    rw [hempty, htf, hrne]
    rfl
  · intro hsel
    simp only [handleSchedule]
    rw [hsel]
    rfl
  · intro hne hmiss
    have hempty : ((founders.filter (fun f => !f.emails.isEmpty)).filter
        (fun f => selectedIds.contains f.id)).isEmpty = false := by
      cases hsel : (founders.filter (fun f => !f.emails.isEmpty)).filter
          (fun f => selectedIds.contains f.id) with
      | nil => exact absurd hsel hne
      | cons a t => rfl
    have hcond : (date.isNone || (time == "")) = true := by
      rcases hmiss with hd | ht
      · subst hd; rfl
      · subst ht; simp
    simp only [handleSchedule]
    rw [hempty, hcond]
    rfl

/-- Witness for C4 (amended) at one selected founder with an email. -/
theorem schedule_meeting_witness :
    handleSchedule [⟨"d-0", "Alice", "Acme", ["a@x.com"], []⟩] ["d-0"]
        (some ⟨2026, 10, 11⟩) "14:30" "Acme" =
      ScheduleOutcome.opened (buildGmailUrl ["a@x.com"] "Meeting Request - Acme"
        "Hi guys, Lets connect on October 11, 2026 at 2:30 PM for 30 mins to discuss further about the product from your company Acme. Thank you.") := by
  rw [(schedule_meeting [⟨"d-0", "Alice", "Acme", ["a@x.com"], []⟩] ["d-0"]
    (some ⟨2026, 10, 11⟩) "14:30" "Acme").1 ⟨2026, 10, 11⟩ (by decide) rfl (by decide)]
  decide

/-! ## Claim C5: delete is atomic on the displayed list -/

/-- C5: deleting an analysis removes exactly the entries whose deal
identifier matches the requested startup, and a failed or throwing DELETE
request leaves the displayed list exactly as it was. -/
theorem dashboard_delete_atomic (l : List AnalysisData) (id : String) :
    (handleDelete l id DeleteOutcome.ok).1 = l.filter (fun s => !(s.deal_id == id)) ∧
    (∀ x, x ∈ (handleDelete l id DeleteOutcome.ok).1 ↔ x ∈ l ∧ ¬x.deal_id = id) ∧
    (handleDelete l id DeleteOutcome.httpError).1 = l ∧
    (handleDelete l id DeleteOutcome.threw).1 = l := by
  refine ⟨rfl, ?_, rfl, rfl⟩
  intro x
  simp [handleDelete, List.mem_filter]

/-! ## Claim C10: the upload body carries at most pitch_deck -/

/-- C10: the at-least-one-source check passes whenever any of the four
inputs is provided, but the multipart body built by the upload handler
contains the pitch_deck field alone when a deck is chosen and nothing at
all otherwise: the video file, audio file and additional text are never
part of the request body. -/
theorem upload_body_only_pitch_deck (pd v a2 : Option String) (info : String) :
    (handleUploadClick pd v a2 info = none ↔ canGenerate pd v a2 info = false) ∧
    (canGenerate pd v a2 info = false ↔
      pd = none ∧ v = none ∧ a2 = none ∧ jsTrim info = "") ∧
    (∀ form, handleUploadClick pd v a2 info = some form →
      form = (match pd with | some f => [("pitch_deck", f)] | none => []) ∧
      ∀ kv ∈ form, kv.1 = "pitch_deck") ∧
    (pd = none → (v.isSome || a2.isSome || !(jsTrim info == "")) = true →
      handleUploadClick pd v a2 info = some []) := by
  cases pd <;> cases v <;> cases a2 <;>
    by_cases hinfo : jsTrim info = "" <;>
      simp [handleUploadClick, canGenerate, hinfo]

/-- Witness for C10: a video-only selection passes the check and sends an
empty form body. -/
theorem upload_body_only_pitch_deck_witness :
    handleUploadClick none (some "demo.mp4") none "" = some [] :=
  (upload_body_only_pitch_deck none (some "demo.mp4") none "").2.2.2 rfl (by decide)

/-! ## Lemmas about alphabetic runs and trimming (for claims C7 and C9) -/

theorem ws_not_alpha {c : Char} (h : isWsChar c = true) : isLowerAlpha c = false := by
  unfold isWsChar at h
  rcases Bool.or_eq_true_iff.mp h with h5 | h6
  · rcases Bool.or_eq_true_iff.mp h5 with h4 | h4a
    · rcases Bool.or_eq_true_iff.mp h4 with h3 | h3a
      · rcases Bool.or_eq_true_iff.mp h3 with h2 | h2a
        · rcases Bool.or_eq_true_iff.mp h2 with h1 | h1a
          · rw [show c = ' ' from beq_iff_eq.mp h1]; decide
          · rw [show c = '\t' from beq_iff_eq.mp h1a]; decide
        · rw [show c = '\n' from beq_iff_eq.mp h2a]; decide
      · rw [show c = '\r' from beq_iff_eq.mp h3a]; decide
    · rw [show c = '\x0b' from beq_iff_eq.mp h4a]; decide
  · rw [show c = '\x0c' from beq_iff_eq.mp h6]; decide

theorem trimRightL_eq_nil_all_ws : ∀ l : List Char, trimRightL l = [] →
    ∀ c ∈ l, isWsChar c = true := by
  intro l
  induction l with
  | nil => intro _ c hc; exact absurd hc (List.not_mem_nil c)
  | cons d r ih =>
    intro h c hc
    rw [trimRightL] at h
    cases htr : trimRightL r with
    | nil =>
      rw [htr] at h
      by_cases hwd : isWsChar d = true
      · rcases List.mem_cons.mp hc with rfl | hcr
        · exact hwd
        · exact ih htr c hcr
      · rw [if_neg hwd] at h
        exact absurd h (by simp)
    | cons x xs =>
      rw [htr] at h
      exact absurd h (by simp)

theorem takeWhile_alpha_trimRightL : ∀ l : List Char,
    (trimRightL l).takeWhile isLowerAlpha = l.takeWhile isLowerAlpha := by
  intro l
  induction l with
  | nil => rfl
  | cons c r ih =>
    rw [trimRightL]
    cases htr : trimRightL r with
    | nil =>
      by_cases hw : isWsChar c = true
      · rw [if_pos hw]
        simp only [List.takeWhile_nil, List.takeWhile_cons, ws_not_alpha hw,
          Bool.false_eq_true, if_false]
      · rw [if_neg hw]
        simp only [List.takeWhile_cons]
        by_cases ha : isLowerAlpha c = true
        · simp only [ha, if_true, List.takeWhile_nil]
          have hall := trimRightL_eq_nil_all_ws r htr
          cases hr : r with
          | nil => rfl
          | cons x xs =>
            have hwx : isWsChar x = true := hall x (by rw [hr]; exact List.mem_cons_self _ _)
            simp [List.takeWhile_cons, ws_not_alpha hwx]
        · simp only [Bool.not_eq_true] at ha
          simp [ha]
    | cons x xs =>
      by_cases ha : isLowerAlpha c = true
      · have lhs_eq : List.takeWhile isLowerAlpha (c :: x :: xs) =
            c :: List.takeWhile isLowerAlpha (x :: xs) := by
          rw [List.takeWhile_cons, if_pos ha]
        have rhs_eq : List.takeWhile isLowerAlpha (c :: r) =
            c :: List.takeWhile isLowerAlpha r := by
          rw [List.takeWhile_cons, if_pos ha]
        rw [lhs_eq, rhs_eq, ← htr, ih]
      · rw [Bool.not_eq_true] at ha
        have lhs_eq : List.takeWhile isLowerAlpha (c :: x :: xs) = [] := by
          rw [List.takeWhile_cons, if_neg (by simp [ha])]
        have rhs_eq : List.takeWhile isLowerAlpha (c :: r) = [] := by
          rw [List.takeWhile_cons, if_neg (by simp [ha])]
        rw [lhs_eq, rhs_eq]

theorem alphaRunsAux_acc (t : List Char) : ∀ acc : List Char, acc ≠ [] →
    alphaRunsAux t acc =
      (acc.reverse ++ t.takeWhile isLowerAlpha) :: alphaRuns (t.dropWhile isLowerAlpha) := by
  induction t with
  | nil =>
    intro acc hacc
    have : acc.isEmpty = false := by
      cases acc with
      | nil => exact absurd rfl hacc
      | cons a b => rfl
    simp [alphaRunsAux, this, alphaRuns]
  | cons d r ih =>
    intro acc hacc
    rw [alphaRunsAux]
    by_cases hd : isLowerAlpha d = true
    · rw [if_pos hd]
      rw [ih (d :: acc) (by simp)]
      simp [hd, List.takeWhile_cons, List.dropWhile_cons]
    · have hne : acc.isEmpty = false := by
        cases acc with
        | nil => exact absurd rfl hacc
        | cons a b => rfl
      rw [Bool.not_eq_true] at hd
      rw [if_neg (by simp [hd])]
      simp [hne, alphaRuns, List.takeWhile_cons, List.dropWhile_cons, hd, alphaRunsAux]

theorem alphaRunsAux_append_sep (y : List Char) {c : Char} (hc : isLowerAlpha c = false) :
    ∀ (x acc : List Char),
      alphaRunsAux (x ++ c :: y) acc = alphaRunsAux x acc ++ alphaRuns y := by
  intro x
  induction x with
  | nil =>
    intro acc
    simp only [List.nil_append, alphaRunsAux, hc, Bool.false_eq_true, if_false, alphaRuns]
  | cons d r ih =>
    intro acc
    by_cases hd : isLowerAlpha d = true
    · simp only [List.cons_append, alphaRunsAux, hd, if_true]
      exact ih (d :: acc)
    · rw [Bool.not_eq_true] at hd
      simp only [List.cons_append, alphaRunsAux, hd, Bool.false_eq_true, if_false,
        List.append_eq]
      rw [ih []]
      rw [List.append_assoc]

theorem alphaRuns_append_sep (x y : List Char) {c : Char} (hc : isLowerAlpha c = false) :
    alphaRuns (x ++ c :: y) = alphaRuns x ++ alphaRuns y :=
  alphaRunsAux_append_sep y hc x []

theorem leading_alpha_mem_alphaRuns : ∀ y : List Char,
    (jsTrimL y).takeWhile isLowerAlpha ≠ [] →
      (jsTrimL y).takeWhile isLowerAlpha ∈ alphaRuns y := by
  intro y
  unfold jsTrimL
  rw [takeWhile_alpha_trimRightL]
  induction y with
  | nil => intro h; exact absurd rfl h
  | cons c r ih =>
    intro h
    by_cases hw : isWsChar c = true
    · rw [List.dropWhile_cons, if_pos hw] at h ⊢
      have := ih h
      have halphac : isLowerAlpha c = false := ws_not_alpha hw
      show _ ∈ alphaRunsAux (c :: r) []
      rw [alphaRunsAux, if_neg (by simp [halphac])]
      simpa [alphaRuns] using this
    · rw [List.dropWhile_cons, if_neg hw] at h ⊢
      rw [List.takeWhile_cons] at h ⊢
      by_cases ha : isLowerAlpha c = true
      · rw [if_pos ha] at h ⊢
        show _ ∈ alphaRunsAux (c :: r) []
        rw [alphaRunsAux, if_pos ha]
        rw [alphaRunsAux_acc r [c] (by simp)]
        simp
      · rw [Bool.not_eq_true] at ha
        rw [if_neg (by simp [ha])] at h
        exact absurd rfl h

theorem findSome_none_of_mem {α β : Type} (f : α → Option β) :
    ∀ l : List α, l.findSome? f = none → ∀ x ∈ l, f x = none := by
  intro l
  induction l with
  | nil => intro _ x hx; exact absurd hx (List.not_mem_nil x)
  | cons a t ih =>
    intro h x hx
    rw [List.findSome?_cons] at h
    cases hfa : f a with
    | some b => rw [hfa] at h; exact absurd h (by simp)
    | none =>
      rw [hfa] at h
      rcases List.mem_cons.mp hx with rfl | hxt
      · exact hfa
      · exact ih h x hxt

theorem suffix_lookup_none (r : NumScanResult)
    (hnone : ((alphaRuns (r.before ++ ' ' :: r.after)).map
      (fun l => (⟨l⟩ : String))).findSome? multiplierOf = none)
    (hsw : (jsTrimL r.after).takeWhile isLowerAlpha ≠ []) :
    multiplierOf ⟨(jsTrimL r.after).takeWhile isLowerAlpha⟩ = none := by
  have hmem : (jsTrimL r.after).takeWhile isLowerAlpha ∈ alphaRuns (r.before ++ ' ' :: r.after) := by
    rw [alphaRuns_append_sep r.before r.after (by decide)]
    exact List.mem_append_right _ (leading_alpha_mem_alphaRuns r.after hsw)
  exact findSome_none_of_mem multiplierOf _ hnone _
    (List.mem_map_of_mem (fun l => (⟨l⟩ : String)) hmem)

/-! ## Claim C7: parseFinancialNumber versus the claim's table -/

/-- C7 (amended): parseFinancialNumber agrees everywhere with the claim's
description once the crores spelling is added to the claimed multiplier
table: null on unavailable or digit-free input, first number times the
multiplier of its first recognised magnitude word, bare number
otherwise. -/
theorem financial_parse_amended (v : Option String) :
    parseFinancialNumber v = claimParseAmended v := by
  unfold claimParseAmended
  simp only [parseFinancialNumber, claimParseWith]
  by_cases hcond : (!optTruthy v || isValueUnavailable v) = true
  · simp [hcond]
  · simp only [Bool.not_eq_true] at hcond
    simp only [hcond, Bool.false_eq_true, if_false]
    cases hscan : numScan (removeCommas (asciiLower (jsTrim (v.getD ""))).data) with
    | none => rfl
    | some r =>
      cases htok : ((alphaRuns (r.before ++ ' ' :: r.after)).map
          (fun l => (⟨l⟩ : String))).findSome? multiplierOf with
      | some m => simp [htok]
      | none =>
        simp only [htok]
        by_cases hsw : ((jsTrimL r.after).takeWhile isLowerAlpha).isEmpty = true
        · simp [hsw]
        · have hswne : (jsTrimL r.after).takeWhile isLowerAlpha ≠ [] := by
            intro hc
            rw [hc] at hsw
            exact hsw rfl
          have hlook := suffix_lookup_none r htok hswne
          simp [hsw, hlook]

/-- Evaluation helper: parseFinancialNumber at an input whose scan and
token lookup are known. -/
theorem parseFinancialNumber_eval (v : Option String) (r : NumScanResult) (m : ℚ)
    (hcond : (!optTruthy v || isValueUnavailable v) = false)
    (hscan : numScan (removeCommas (asciiLower (jsTrim (v.getD ""))).data) = some r)
    (htok : ((alphaRuns (r.before ++ ' ' :: r.after)).map
      (fun l => (⟨l⟩ : String))).findSome? multiplierOf = some m) :
    parseFinancialNumber v = some (numValue r * m) := by
  simp only [parseFinancialNumber, hcond, Bool.false_eq_true, if_false, hscan, htok]

/-- Evaluation helper for the claim's literal table when no token is
recognised. -/
theorem claimParseLiteral_eval_bare (v : Option String) (r : NumScanResult)
    (hcond : (!optTruthy v || isValueUnavailable v) = false)
    (hscan : numScan (removeCommas (asciiLower (jsTrim (v.getD ""))).data) = some r)
    (htok : ((alphaRuns (r.before ++ ' ' :: r.after)).map
      (fun l => (⟨l⟩ : String))).findSome? claimMultiplierLiteral = none) :
    claimParseLiteral v = some (numValue r) := by
  simp only [claimParseLiteral, claimParseWith, hcond, Bool.false_eq_true, if_false,
    hscan, htok]

/-- C7 counterexample: on the input 5 crores the code multiplies by the
crores multiplier and returns fifty million, while the claim's enumerated
table, which omits the crores spelling, prescribes the bare number five;
the two disagree. -/
theorem financial_crores_counterexample :
    parseFinancialNumber (some "5 crores") = some 50000000 ∧
    claimParseLiteral (some "5 crores") = some 5 ∧
    parseFinancialNumber (some "5 crores") ≠ claimParseLiteral (some "5 crores") := by
  have hval : numValue ⟨[], false, ['5'], [], ' ' :: "crores".data⟩ = 5 := by
    have h5 : digitsToNat ['5'] = 5 := by decide
    have h0 : digitsToNat ([] : List Char) = 0 := by decide
    simp [numValue, h5, h0]
  have h1 : parseFinancialNumber (some "5 crores") = some 50000000 := by
    rw [parseFinancialNumber_eval (some "5 crores")
      ⟨[], false, ['5'], [], ' ' :: "crores".data⟩ 10000000 (by decide) (by decide) (by decide)]
    rw [hval]
    norm_num
  have h2 : claimParseLiteral (some "5 crores") = some 5 := by
    rw [claimParseLiteral_eval_bare (some "5 crores")
      ⟨[], false, ['5'], [], ' ' :: "crores".data⟩ (by decide) (by decide) (by decide)]
    rw [hval]
  refine ⟨h1, h2, ?_⟩
  rw [h1, h2]
  intro hc
  have : (50000000 : ℚ) = 5 := Option.some_inj.mp hc
  norm_num at this

/-! ## Claim C9: negative amounts are classified unavailable -/

theorem hasSub_singleton_of_mem {c : Char} : ∀ l : List Char, c ∈ l →
    hasSubL [c] l = true := by
  intro l
  induction l with
  | nil => intro h; exact absurd h (List.not_mem_nil c)
  | cons d t ih =>
    intro h
    rcases List.mem_cons.mp h with rfl | ht
    · rw [hasSubL]
      simp [listPrefixOf]
    · rw [hasSubL]
      rw [ih ht]
      simp

theorem mem_dropWhile_of_mem {p : Char → Bool} {c : Char} (hc : p c = false) :
    ∀ l : List Char, c ∈ l → c ∈ l.dropWhile p := by
  intro l
  induction l with
  | nil => intro h; exact absurd h (List.not_mem_nil c)
  | cons d t ih =>
    intro h
    rw [List.dropWhile_cons]
    by_cases hd : p d = true
    · rw [if_pos hd]
      rcases List.mem_cons.mp h with rfl | ht
      · rw [hd] at hc; exact absurd hc (by simp)
      · exact ih ht
    · rw [Bool.not_eq_true] at hd
      rw [if_neg (by simp [hd])]
      exact h

theorem mem_trimRightL_of_mem {c : Char} (hc : isWsChar c = false) :
    ∀ l : List Char, c ∈ l → c ∈ trimRightL l := by
  intro l
  induction l with
  | nil => intro h; exact absurd h (List.not_mem_nil c)
  | cons d t ih =>
    intro h
    rw [trimRightL]
    cases htr : trimRightL t with
    | nil =>
      rcases List.mem_cons.mp h with rfl | ht
      · rw [hc]
        simp
      · have := trimRightL_eq_nil_all_ws t htr c ht
        rw [this] at hc
        exact absurd hc (by simp)
    | cons x xs =>
      rcases List.mem_cons.mp h with rfl | ht
      · exact List.mem_cons_self _ _
      · have := ih ht
        rw [htr] at this
        exact List.mem_cons_of_mem _ this

theorem dash_mem_normalized {s : String} (h : '-' ∈ s.data) :
    '-' ∈ (asciiLower (jsTrim s)).data := by
  have h1 : '-' ∈ jsTrimL s.data :=
    mem_trimRightL_of_mem (by decide) _ (mem_dropWhile_of_mem (by decide) _ h)
  have h2 : '-' ∈ (jsTrimL s.data).map lowerChar := by
    have := List.mem_map_of_mem lowerChar h1
    simpa using this
  exact h2

theorem unavailable_of_token_incl {s : String} {t : String}
    (htok : t ∈ UNAVAILABLE_TOKENS)
    (hinc : strIncludes (asciiLower (jsTrim s)) t = true) :
    isValueUnavailable (some s) = true := by
  unfold isValueUnavailable
  by_cases hs0 : (s == "") = true
  · simp [hs0]
  · rw [Bool.not_eq_true] at hs0
    simp only [hs0, Bool.false_eq_true, if_false]
    by_cases hn0 : (asciiLower (jsTrim s) == "") = true
    · simp [hn0]
    · rw [Bool.not_eq_true] at hn0
      simp only [hn0, Bool.false_eq_true, if_false]
      rw [List.any_eq_true]
      exact ⟨t, htok, hinc⟩

/-- C9: every string containing a minus character, and every string whose
normalised form contains an unavailability placeholder token, is
classified unavailable, so parseFinancialNumber returns null and
formatCurrencyValue returns N/A on it; meanwhile the number regex itself
does accept a leading minus sign, as its match on the text of -5 million
shows. -/
theorem negative_amounts_unavailable :
    (∀ s : String, '-' ∈ s.data →
      isValueUnavailable (some s) = true ∧
      parseFinancialNumber (some s) = none ∧
      formatCurrencyValue (CurrencyInput.str s) = "N/A") ∧
    (∀ s : String, ∀ t ∈ UNAVAILABLE_TOKENS,
      strIncludes (asciiLower (jsTrim s)) t = true →
      isValueUnavailable (some s) = true ∧
      parseFinancialNumber (some s) = none ∧
      formatCurrencyValue (CurrencyInput.str s) = "N/A") ∧
    (numScan (removeCommas (asciiLower (jsTrim "-5 million")).data) =
      some ⟨[], true, ['5'], [], ' ' :: "million".data⟩ ∧
     matchedLexeme ⟨[], true, ['5'], [], ' ' :: "million".data⟩ = "-5".data) := by
  have main : ∀ s : String, isValueUnavailable (some s) = true →
      parseFinancialNumber (some s) = none ∧
      formatCurrencyValue (CurrencyInput.str s) = "N/A" := by
    intro s hunav
    constructor
    · simp [parseFinancialNumber, hunav]
    · simp [formatCurrencyValue, hunav]
  refine ⟨?_, ?_, by decide, by decide⟩
  · intro s hdash
    have hinc : strIncludes (asciiLower (jsTrim s)) "-" = true :=
      hasSub_singleton_of_mem _ (dash_mem_normalized hdash)
    have hunav := unavailable_of_token_incl (by decide) hinc
    exact ⟨hunav, (main s hunav).1, (main s hunav).2⟩
  · intro s t htok hinc
    have hunav := unavailable_of_token_incl htok hinc
    exact ⟨hunav, (main s hunav).1, (main s hunav).2⟩

/-- Witness for C9 at the negative amount string -5 million. -/
theorem negative_amounts_unavailable_witness :
    isValueUnavailable (some "-5 million") = true ∧
    parseFinancialNumber (some "-5 million") = none ∧
    formatCurrencyValue (CurrencyInput.str "-5 million") = "N/A" :=
  negative_amounts_unavailable.1 "-5 million" (by decide)

/-! ## C8: founder directory invariants -/

theorem nodup_append_single {α : Type} {l : List α} {x : α} (h : l.Nodup) (hx : x ∉ l) :
    (l ++ [x]).Nodup := by
  rw [List.nodup_append]
  refine ⟨h, List.nodup_singleton x, ?_⟩
  intro a ha hax
  rw [List.mem_singleton] at hax
  exact hx (hax ▸ ha)

theorem setAdd_nodup {l : List String} {x : String} (h : l.Nodup) : (setAdd l x).Nodup := by
  unfold setAdd
  by_cases hc : l.contains x = true
  · simp only [hc, if_true]
    exact h
  · simp only [hc, Bool.false_eq_true, if_false]
    refine nodup_append_single h ?_
    intro hm
    exact hc (List.elem_iff.mpr hm)

theorem foldl_preserve {α : Type} (P : DirSt → Prop) (f : DirSt → α → DirSt)
    (hf : ∀ st a, P st → P (f st a)) :
    ∀ (l : List α) (st : DirSt), P st → P (l.foldl f st) := by
  intro l
  induction l with
  | nil => intro st h; exact h
  | cons a t ih => intro st h; exact ih (f st a) (hf st a h)

theorem dir_keep_inv {st : DirSt} (fb : Nat) (h : DirInv st) :
    DirInv (⟨st.entries, fb⟩ : DirSt) := ⟨h.1, h.2⟩

theorem dir_append_inv {st : DirSt} (name : String) (fb : Nat) (h : DirInv st)
    (hhas : dirHas st (asciiLower name) = false) :
    DirInv ⟨st.entries ++ [(asciiLower name, ⟨name, [], []⟩)], fb⟩ := by
  have hnot : asciiLower name ∉ st.entries.map Prod.fst := by
    intro hm
    rw [List.mem_map] at hm
    obtain ⟨e, he, heq⟩ := hm
    have htrue : dirHas st (asciiLower name) = true := by
      unfold dirHas
      rw [List.any_eq_true]
      exact ⟨e, he, by simp [heq]⟩
    rw [htrue] at hhas
    exact absurd hhas (by decide)
  constructor
  · show (List.map Prod.fst (st.entries ++ [(asciiLower name, ⟨name, [], []⟩)])).Nodup
    rw [List.map_append, List.map_cons, List.map_nil]
    exact nodup_append_single h.1 hnot
  · intro e he
    have he2 : e ∈ st.entries ++ [(asciiLower name, ⟨name, [], []⟩)] := he
    rw [List.mem_append] at he2
    cases he2 with
    | inl h1 => exact h.2 e h1
    | inr h2 =>
      rw [List.mem_singleton] at h2
      subst h2
      exact ⟨rfl, List.nodup_nil, List.nodup_nil⟩

theorem ensureRecordSt_inv (st : DirSt) (raw : Option String) (h : DirInv st) :
    DirInv (ensureRecordSt st raw).1 := by
  simp only [ensureRecordSt]
  split <;> split
  · exact dir_keep_inv _ h
  · next hhas => exact dir_append_inv _ _ h (Bool.eq_false_iff.mpr hhas)
  · exact dir_keep_inv _ h
  · next hhas => exact dir_append_inv _ _ h (Bool.eq_false_iff.mpr hhas)

theorem dirModify_inv (st : DirSt) (key : String) (f : DirRec → DirRec)
    (hname : ∀ r, (f r).name = r.name)
    (hmail : ∀ r, r.emails.Nodup → (f r).emails.Nodup)
    (hphone : ∀ r, r.phones.Nodup → (f r).phones.Nodup)
    (h : DirInv st) : DirInv (dirModify st key f) := by
  unfold dirModify
  constructor
  · rw [List.map_map]
    have hcg : ∀ e ∈ st.entries,
        (Prod.fst ∘ fun e => if e.1 == key then (e.1, f e.2) else e) e = Prod.fst e := by
      intro e _
      simp only [Function.comp_apply]
      by_cases hc : (e.1 == key) = true
      · rw [if_pos hc]
      · rw [if_neg hc]
    rw [List.map_congr_left hcg]
    exact h.1
  · intro e he
    rw [List.mem_map] at he
    obtain ⟨e0, he0, heq⟩ := he
    have h0 := h.2 e0 he0
    by_cases hc : (e0.1 == key) = true
    · rw [if_pos hc] at heq
      subst heq
      refine ⟨?_, hmail _ h0.2.1, hphone _ h0.2.2⟩
      rw [hname]
      exact h0.1
    · rw [if_neg hc] at heq
      subst heq
      exact h0

theorem dirInv_ite (c : Prop) [Decidable c] (a b : DirSt) (ha : DirInv a) (hb : DirInv b) :
    DirInv (if c then a else b) := by
  split
  · exact ha
  · exact hb

theorem addEmailSt_inv (st : DirSt) (nc : Option String) (email : String)
    (h : DirInv st) : DirInv (addEmailSt st nc email) := by
  simp only [addEmailSt]
  split
  · exact h
  · exact dirModify_inv _ _ _ (fun r => rfl) (fun r hr => setAdd_nodup hr) (fun r hr => hr)
      (ensureRecordSt_inv st _ h)

theorem addPhoneSt_inv (st : DirSt) (nc : Option String) (phone : String)
    (h : DirInv st) : DirInv (addPhoneSt st nc phone) := by
  simp only [addPhoneSt]
  split
  · exact h
  · exact dirModify_inv _ _ _ (fun r => rfl) (fun r hr => hr) (fun r hr => setAdd_nodup hr)
      (ensureRecordSt_inv st nc h)

theorem addMemoFounder_inv (st : DirSt) (idx : Nat) (f : Founder)
    (h : DirInv st) : DirInv (addMemoFounder st idx f) := by
  simp only [addMemoFounder]
  split
  · exact ensureRecordSt_inv st _ h
  · exact dirModify_inv _ _ _ (fun r => rfl) (fun r hr => setAdd_nodup hr) (fun r hr => hr)
      (ensureRecordSt_inv st _ h)

theorem applyPhoneBucket_inv (st : DirSt) (ent : String × PhoneEnt)
    (h : DirInv st) : DirInv (applyPhoneBucket st ent) := by
  obtain ⟨nameKey, pe⟩ := ent
  simp only [applyPhoneBucket]
  split
  · exact foldl_preserve _ _ (fun st a hh => addPhoneSt_inv st pe.displayName a hh) pe.phones st h
  · split
    · next hents =>
      exact foldl_preserve _ _ (fun acc ph hh =>
        dirModify_inv acc (ensureRecordSt st (some "Primary Contact")).2
          (fun r => ⟨r.name, r.emails, setAdd r.phones ph⟩)
          (fun r => rfl) (fun r hr => hr) (fun r hr => setAdd_nodup hr) hh)
        pe.phones _ (ensureRecordSt_inv st (some "Primary Contact") h)
    · next k r rest hents =>
      exact foldl_preserve _ _ (fun acc ph hh =>
        dirModify_inv acc k (fun r => ⟨r.name, r.emails, setAdd r.phones ph⟩)
          (fun r => rfl) (fun r hr => hr) (fun r hr => setAdd_nodup hr) hh)
        pe.phones st h

theorem buildDirState_inv (ad : AnalysisData) : DirInv (buildDirState ad) := by
  simp only [buildDirState]
  apply dirInv_ite
  all_goals first
    | (apply ensureRecordSt_inv
       apply foldl_preserve _ _ (fun st a hh => applyPhoneBucket_inv st a hh))
    | (apply foldl_preserve _ _ (fun st a hh => applyPhoneBucket_inv st a hh))
  all_goals apply foldl_preserve _ _ (fun st a hh => addEmailSt_inv st none a hh)
  all_goals apply foldl_preserve _ _ (fun st a hh => addEmailSt_inv st none a hh)
  all_goals apply dirInv_ite
  all_goals first
    | (apply addEmailSt_inv)
    | skip
  all_goals apply dirInv_ite
  all_goals first
    | apply foldl_preserve _ _ (fun st a hh => addEmailSt_inv st (some a.2) a.1 hh)
    | apply foldl_preserve _ _ (fun st a hh => addEmailSt_inv st none a hh)
  all_goals apply foldl_preserve _ _ (fun st a hh => ensureRecordSt_inv st (some a) hh)
  all_goals apply foldl_preserve _ _ (fun st a hh => addMemoFounder_inv st a.1 a.2 hh)
  all_goals exact ⟨List.nodup_nil, fun e he => absurd he (List.not_mem_nil e)⟩

theorem ensureRecord_nonempty (st : DirSt) (hst : st.entries = []) :
    (ensureRecordSt st (some "Primary Contact")).1.entries ≠ [] := by
  simp [ensureRecordSt, dirHas, hst]

theorem dirState_final_ne (st : DirSt) :
    (if st.entries.isEmpty = true then (ensureRecordSt st (some "Primary Contact")).1
      else st).entries ≠ [] := by
  by_cases hemp : st.entries.isEmpty = true
  · rw [if_pos hemp]
    exact ensureRecord_nonempty st (List.isEmpty_iff.mp hemp)
  · rw [if_neg hemp]
    intro hc
    exact hemp (by rw [hc]; rfl)

theorem buildDirState_ne_nil (ad : AnalysisData) : (buildDirState ad).entries ≠ [] := by
  simp only [buildDirState]
  exact dirState_final_ne _

theorem enumFrom_map_proj {α γ : Type} (f : α → γ) (g : Nat × α → γ)
    (hg : ∀ i a, g (i, a) = f a) :
    ∀ (k : Nat) (l : List α), (List.enumFrom k l).map g = l.map f := by
  intro k l
  induction l generalizing k with
  | nil => rfl
  | cons a t ih => simp [List.enumFrom, hg, ih]

theorem snd_mem_of_mem_enumFrom {α : Type} :
    ∀ (l : List α) (k : Nat) (x : Nat × α), x ∈ List.enumFrom k l → x.2 ∈ l := by
  intro l
  induction l with
  | nil => intro k x hx; simp [List.enumFrom] at hx
  | cons a t ih =>
    intro k x hx
    rw [List.enumFrom, List.mem_cons] at hx
    cases hx with
    | inl h => rw [h]; exact List.mem_cons_self _ _
    | inr h => exact List.mem_cons_of_mem _ (ih (k + 1) x h)

/-- C8: buildFounderDirectory always returns at least one contact (a
synthetic Primary Contact entry when nothing can be derived, as the empty
analysis document shows), no two returned contacts share a name up to
case, and every contact's email list and phone list are duplicate-free. -/
theorem founder_directory_invariants :
    (∀ ad : AnalysisData,
      buildFounderDirectory ad ≠ [] ∧
      ((buildFounderDirectory ad).map (fun c => asciiLower c.name)).Nodup ∧
      ∀ c ∈ buildFounderDirectory ad, c.emails.Nodup ∧ c.phones.Nodup) ∧
    (buildFounderDirectory emptyAnalysis).map (fun c => c.name) = ["Primary Contact"] := by
  constructor
  · intro ad
    have hinv := buildDirState_inv ad
    have hne := buildDirState_ne_nil ad
    refine ⟨?_, ?_, ?_⟩
    · simp only [buildFounderDirectory]
      intro hc
      apply hne
      have h1 : (buildDirState ad).entries.enum = [] := List.map_eq_nil_iff.mp hc
      cases hl : (buildDirState ad).entries with
      | nil => rfl
      | cons a t =>
        rw [hl] at h1
        exact absurd h1 (by simp [List.enum, List.enumFrom])
    · have hmap : (buildFounderDirectory ad).map (fun c => asciiLower c.name) =
          (buildDirState ad).entries.map (fun e => asciiLower e.2.name) := by
        simp only [buildFounderDirectory]
        rw [List.map_map]
        exact enumFrom_map_proj (fun (e : String × DirRec) => asciiLower e.2.name) _
          (fun i a => rfl) 0 _
      rw [hmap]
      have hcongr : (buildDirState ad).entries.map (fun e => asciiLower e.2.name) =
          (buildDirState ad).entries.map Prod.fst :=
        List.map_congr_left (fun e he => (hinv.2 e he).1)
      rw [hcongr]
      exact hinv.1
    · intro c hc
      simp only [buildFounderDirectory] at hc
      rw [List.mem_map] at hc
      obtain ⟨ei, hei, heq⟩ := hc
      have hmem : ei.2 ∈ (buildDirState ad).entries :=
        snd_mem_of_mem_enumFrom _ 0 ei hei
      have h2 := hinv.2 ei.2 hmem
      rw [← heq]
      exact ⟨h2.2.1, h2.2.2⟩
  · decide

/-- Witness for C8: the empty analysis document yields exactly the
synthetic Primary Contact, whose lists are duplicate-free. -/
theorem founder_directory_invariants_witness :
    buildFounderDirectory emptyAnalysis ≠ [] ∧
    (⟨"-0", "Primary Contact", "Unknown Company", [], []⟩ : FounderContact) ∈
      buildFounderDirectory emptyAnalysis ∧
    ((⟨"-0", "Primary Contact", "Unknown Company", [], []⟩ : FounderContact).emails.Nodup ∧
     (⟨"-0", "Primary Contact", "Unknown Company", [], []⟩ : FounderContact).phones.Nodup) :=
  ⟨(founder_directory_invariants.1 emptyAnalysis).1,
   by decide,
   (founder_directory_invariants.1 emptyAnalysis).2.2 _ (by decide)⟩

end PitchLens
